import Mathlib

/-
Verification of the SSA rename-state store (src/jit/ssarenamestate.cpp, .h)
and the early value-propagation pass (src/jit/earlyprop.cpp) of the JIT,
via a shallow embedding of the relevant functions.
-/

namespace SsaRename

/-- Modelled from the spec: ssaconfig.h is external to the sources; the spec (§3)
names a reserved UNINIT sentinel denoting "no definition reached yet". -/
def UNINIT_SSA_NUM : Nat := 0

/-- Modelled from the spec: the reserved "no definition" SSA number
(`SsaConfig::RESERVED_SSA_NUM`, external ssaconfig.h). -/
def RESERVED_SSA_NUM : Nat := 0

/-- Modelled from the spec: the first real SSA version number
(`SsaConfig::FIRST_SSA_NUM`, external ssaconfig.h); distinct from the sentinels. -/
def FIRST_SSA_NUM : Nat := 2

/-- One stack entry of `SsaRenameState::Stack`: the owning block number and the
SSA number it carries (the two intrusive links `m_list`/`m_stack` are represented
by the list structures below). -/
structure Frame where
  bbNum : Nat
  ssaNum : Nat
deriving Repr, DecidableEq

/-- The rename state: `m_lclStacks` maps each local to its stack of frames
(head = top), and `m_blockStack` is the process-wide list of (bbNum, lclNum)
frames in push order (head = most recently pushed). -/
structure RenameState where
  lclStacks : Nat → List Frame
  blockStack : List (Nat × Nat)

def emptyRenameState : RenameState :=
  { lclStacks := fun _ => [], blockStack := [] }

def updateStacks (st : Nat → List Frame) (l : Nat) (v : List Frame) : Nat → List Frame :=
  fun x => if x = l then v else st x

/-- `SsaRenameState::CountForUse` (ssarenamestate.cpp:94-105): top of the local's
stack, or the uninitialized sentinel when the stack is empty. -/
def countForUse (s : RenameState) (lclNum : Nat) : Nat :=
  match s.lclStacks lclNum with
  | [] => UNINIT_SSA_NUM
  | f :: _ => f.ssaNum

/-- `SsaRenameState::Push` (ssarenamestate.cpp:161-196): if the top frame for the
local already belongs to `bbNum`, overwrite its SSA number in place; otherwise
link a new frame on both the local's stack and the block stack. -/
def push (s : RenameState) (bbNum lclNum ssaNum : Nat) : RenameState :=
  match s.lclStacks lclNum with
  | f :: rest =>
    if f.bbNum = bbNum then
      { s with lclStacks := updateStacks s.lclStacks lclNum (Frame.mk bbNum ssaNum :: rest) }
    else
      { lclStacks := updateStacks s.lclStacks lclNum (Frame.mk bbNum ssaNum :: f :: rest)
        blockStack := (bbNum, lclNum) :: s.blockStack }
  | [] =>
      { lclStacks := updateStacks s.lclStacks lclNum [Frame.mk bbNum ssaNum]
        blockStack := (bbNum, lclNum) :: s.blockStack }

/-- The loop of `SsaRenameState::PopBlockStacks` (ssarenamestate.cpp:198-239):
walk the block stack while the front frame belongs to `bbNum`, popping the frame
from its local's stack (the assert in the source guarantees that frame is the
local stack's top; popping the top models `m_lclStacks[lclNum] = stack->m_stack`). -/
def popLoop (lclStacks : Nat → List Frame) (bs : List (Nat × Nat)) (bbNum : Nat) :
    (Nat → List Frame) × List (Nat × Nat) :=
  match bs with
  | [] => (lclStacks, [])
  | (b, l) :: rest =>
    if b = bbNum then
      popLoop (updateStacks lclStacks l ((lclStacks l).tail)) rest bbNum
    else (lclStacks, (b, l) :: rest)

/-- `SsaRenameState::PopBlockStacks` (ssarenamestate.cpp:198-239). -/
def popBlockStacks (s : RenameState) (bbNum : Nat) : RenameState :=
  let r := popLoop s.lclStacks s.blockStack bbNum
  { lclStacks := r.1, blockStack := r.2 }

/-- The memory partitions (`MemoryKind`, fixed small set). -/
inductive MemoryKind where
  | ByrefExposed
  | GcHeap
deriving Repr, DecidableEq

/-- Per-partition version memStacks (`memoryStack` / `m_memoryStacks`), each a stack
of (bbNum, count) entries with the top at the head. -/
structure MemoryState where
  memStacks : MemoryKind → List (Nat × Nat)

def emptyMemoryState : MemoryState := { memStacks := fun _ => [] }

/-- `SsaRenameState::CountForMemoryUse` (ssarenamestate.h:117-125): redirects
GcHeap to ByrefExposed when `byrefStatesMatchGcHeapStates`, then reads the top
entry's count. The source calls `back()` on the stack assuming it is non-empty;
the empty case is modelled as `none`. -/
def countForMemoryUse (byrefStatesMatchGcHeapStates : Bool) (s : MemoryState)
    (memoryKind : MemoryKind) : Option Nat :=
  let memoryKind :=
    if memoryKind = MemoryKind.GcHeap ∧ byrefStatesMatchGcHeapStates then
      MemoryKind.ByrefExposed
    else memoryKind
  (s.memStacks memoryKind).head?.map Prod.snd

/-- `SsaRenameState::PushMemory` (ssarenamestate.h:127-135): redirects GcHeap to
ByrefExposed when the configuration flag is set, then pushes a new entry. -/
def pushMemory (byrefStatesMatchGcHeapStates : Bool) (s : MemoryState)
    (memoryKind : MemoryKind) (bbNum count : Nat) : MemoryState :=
  let memoryKind :=
    if memoryKind = MemoryKind.GcHeap ∧ byrefStatesMatchGcHeapStates then
      MemoryKind.ByrefExposed
    else memoryKind
  { memStacks := fun k =>
      if k = memoryKind then (bbNum, count) :: s.memStacks k else s.memStacks k }

/-- `SsaRenameState::PopBlockMemoryStack` (ssarenamestate.cpp:241-248): pops
entries belonging to `bbNum` from the top of the requested partition's stack.
Note: unlike push and use, this function performs NO GcHeap redirection. -/
def popBlockMemoryStack (s : MemoryState) (memoryKind : MemoryKind) (bbNum : Nat) :
    MemoryState :=
  { memStacks := fun k =>
      if k = memoryKind then (s.memStacks memoryKind).dropWhile (fun e => e.1 = bbNum)
      else s.memStacks k }

mutual
/-- A completed subtree of a simulated dominator walk: a block with its sequence
of actions (pushes made while the block was the innermost open block, and fully
completed child walks), whose single pop occurs at its exit. -/
inductive DomTree where
  | node : Nat → DomItems → DomTree
/-- The sequence of actions performed inside one block of the walk. -/
inductive DomItems where
  | nil : DomItems
  | pushI : Nat → Nat → DomItems → DomItems
  | subI : DomTree → DomItems → DomItems
end

mutual
/-- Run a completed subtree: execute the block's items, then `PopBlockStacks`
at its exit — the well-nested call discipline by construction. -/
def runTree (s : RenameState) : DomTree → RenameState
  | .node b items => popBlockStacks (runItems s b items) b
/-- Run a block's items in order: each push calls `Push` for the owning block,
each completed child walk runs in full. -/
def runItems (s : RenameState) (b : Nat) : DomItems → RenameState
  | .nil => s
  | .pushI l n rest => runItems (push s b l n) b rest
  | .subI t rest => runItems (runTree s t) b rest
end

mutual
/-- All block numbers occurring in a subtree. -/
def treeIds : DomTree → List Nat
  | .node b items => b :: itemIds items
/-- All block numbers of completed subtrees inside an item sequence. -/
def itemIds : DomItems → List Nat
  | .nil => []
  | .pushI _ _ rest => itemIds rest
  | .subI t rest => treeIds t ++ itemIds rest
end

/-- The pushes performed directly by a block (excluding pushes inside completed,
already popped, descendants). -/
def directPushes : DomItems → List (Nat × Nat)
  | .nil => []
  | .pushI l n rest => (l, n) :: directPushes rest
  | .subI _ rest => directPushes rest

/-- A current path of the walk: the chain of still-open blocks, outermost
first, each with the items it has executed so far. -/
def execPath (s : RenameState) : List (Nat × DomItems) → RenameState
  | [] => s
  | (b, items) :: rest => execPath (runItems s b items) rest

/-- All block numbers mentioned by a path (open blocks and their completed
subtrees). -/
def pathIds : List (Nat × DomItems) → List Nat
  | [] => []
  | (b, items) :: rest => b :: (itemIds items ++ pathIds rest)

/-- The open blocks of a path. -/
def pathOpenIds (p : List (Nat × DomItems)) : List Nat := p.map Prod.fst

/-- The last value pushed for `v` in a sequence of (lclNum, ssaNum) pushes. -/
def lastVal (ps : List (Nat × Nat)) (v : Nat) : Option Nat :=
  ps.foldl (fun acc e => if e.1 = v then some e.2 else acc) none

/-- All pushes performed on the current path, in temporal order. -/
def pathPushes : List (Nat × DomItems) → List (Nat × Nat)
  | [] => []
  | (_, items) :: rest => directPushes items ++ pathPushes rest

/-- Specification: the version most recently pushed for `v` on the current
path (pushes of exited descendants are not on the path). -/
def currentPathTop (p : List (Nat × DomItems)) (v : Nat) : Option Nat :=
  lastVal (pathPushes p) v

/-- Push-only replay of a path: every completed subtree is skipped (it restores
the state), only the open blocks' direct pushes run. -/
def pushList (s : RenameState) (b : Nat) : List (Nat × Nat) → RenameState
  | [] => s
  | (l, n) :: rest => pushList (push s b l n) b rest

def execPure (s : RenameState) : List (Nat × DomItems) → RenameState
  | [] => s
  | (b, items) :: rest => execPure (pushList s b (directPushes items)) rest

/-- No frame anywhere in the state belongs to a block in `A`. -/
def StateFresh (A : List Nat) (s : RenameState) : Prop :=
  (∀ e ∈ s.blockStack, e.1 ∉ A) ∧ (∀ v f, f ∈ s.lclStacks v → f.bbNum ∉ A)

end SsaRename

namespace SsaRename

theorem updateStacks_self (st : Nat → List Frame) (l : Nat) (v : List Frame) :
    updateStacks st l v l = v := by
  simp [updateStacks]

theorem updateStacks_other (st : Nat → List Frame) (l : Nat) (v : List Frame)
    (x : Nat) (h : x ≠ l) : updateStacks st l v x = st x := by
  simp [updateStacks, h]

theorem push_eq_overwrite (s : RenameState) (b l n : Nat) (f : Frame) (rest : List Frame)
    (hsl : s.lclStacks l = f :: rest) (hb : f.bbNum = b) :
    push s b l n = { s with lclStacks := updateStacks s.lclStacks l (Frame.mk b n :: rest) } := by
  unfold push
  rw [hsl]
  simp [hb]

theorem push_eq_new_cons (s : RenameState) (b l n : Nat) (f : Frame) (rest : List Frame)
    (hsl : s.lclStacks l = f :: rest) (hb : ¬f.bbNum = b) :
    push s b l n = { lclStacks := updateStacks s.lclStacks l (Frame.mk b n :: f :: rest)
                     blockStack := (b, l) :: s.blockStack } := by
  unfold push
  rw [hsl]
  simp [hb]

theorem push_eq_new_nil (s : RenameState) (b l n : Nat)
    (hsl : s.lclStacks l = []) :
    push s b l n = { lclStacks := updateStacks s.lclStacks l [Frame.mk b n]
                     blockStack := (b, l) :: s.blockStack } := by
  unfold push
  rw [hsl]

theorem push_lclStacks_other (s : RenameState) (b l n v : Nat) (h : v ≠ l) :
    (push s b l n).lclStacks v = s.lclStacks v := by
  cases hsl : s.lclStacks l with
  | nil =>
    rw [push_eq_new_nil s b l n hsl]
    exact updateStacks_other _ _ _ _ h
  | cons f rest =>
    by_cases hb : f.bbNum = b
    · rw [push_eq_overwrite s b l n f rest hsl hb]
      exact updateStacks_other _ _ _ _ h
    · rw [push_eq_new_cons s b l n f rest hsl hb]
      exact updateStacks_other _ _ _ _ h

/-- Any frame present after a `push` is either the newly written frame or was
already present on that local's stack. -/
theorem push_mem_lclStacks (s : RenameState) (b l n v : Nat) (f : Frame)
    (hf : f ∈ (push s b l n).lclStacks v) : f = Frame.mk b n ∨ f ∈ s.lclStacks v := by
  by_cases hv : v = l
  · subst hv
    cases hsl : s.lclStacks v with
    | nil =>
      rw [push_eq_new_nil s b v n hsl] at hf
      simp only [updateStacks] at hf
      simp at hf
      exact Or.inl hf
    | cons f0 rest =>
      by_cases hb : f0.bbNum = b
      · rw [push_eq_overwrite s b v n f0 rest hsl hb] at hf
        simp only [updateStacks] at hf
        simp at hf
        rcases hf with h | h
        · exact Or.inl h
        · exact Or.inr (List.mem_cons_of_mem _ h)
      · rw [push_eq_new_cons s b v n f0 rest hsl hb] at hf
        simp only [updateStacks] at hf
        simp at hf
        rcases hf with h | h
        · exact Or.inl h
        · exact Or.inr (List.mem_cons.mpr h)
  · rw [push_lclStacks_other s b l n v hv] at hf
    exact Or.inr hf

/-- Any block-stack entry present after a `push` is either the new `(b, l)`
entry or was already present. -/
theorem push_mem_blockStack (s : RenameState) (b l n : Nat) (e : Nat × Nat)
    (he : e ∈ (push s b l n).blockStack) : e = (b, l) ∨ e ∈ s.blockStack := by
  cases hsl : s.lclStacks l with
  | nil =>
    rw [push_eq_new_nil s b l n hsl] at he
    exact List.mem_cons.mp he
  | cons f rest =>
    by_cases hb : f.bbNum = b
    · rw [push_eq_overwrite s b l n f rest hsl hb] at he
      exact Or.inr he
    · rw [push_eq_new_cons s b l n f rest hsl hb] at he
      exact List.mem_cons.mp he

theorem push_fresh (s : RenameState) (A : List Nat) (b l n : Nat) (hb : b ∉ A)
    (hs : StateFresh A s) : StateFresh A (push s b l n) := by
  refine ⟨?_, ?_⟩
  · intro e he
    rcases push_mem_blockStack s b l n e he with h | h
    · rw [h]; exact hb
    · exact hs.1 e h
  · intro v f hf
    rcases push_mem_lclStacks s b l n v f hf with h | h
    · rw [h]; exact hb
    · exact hs.2 v f h

theorem pushList_fresh (A : List Nat) (b : Nat) (hb : b ∉ A) :
    ∀ (ps : List (Nat × Nat)) (s : RenameState),
      StateFresh A s → StateFresh A (pushList s b ps)
  | [], _, hs => hs
  | (l, n) :: ps, s, hs =>
    pushList_fresh A b hb ps (push s b l n) (push_fresh s A b l n hb hs)

/-- The relation between a base state and a state reached from it by pushes all
owned by block `b`: the block stack grew by a prefix `es` of `b`-entries with
pairwise distinct locals, and exactly the locals of `es` carry one extra `b`
frame on top of their original stack. -/
def PartialPush (s0 : RenameState) (b : Nat) (es : List (Nat × Nat))
    (s : RenameState) : Prop :=
  s.blockStack = es ++ s0.blockStack
  ∧ (∀ e ∈ es, e.1 = b)
  ∧ (es.map Prod.snd).Nodup
  ∧ (∀ l, (l ∈ es.map Prod.snd → ∃ n, s.lclStacks l = Frame.mk b n :: s0.lclStacks l)
        ∧ (l ∉ es.map Prod.snd → s.lclStacks l = s0.lclStacks l))

theorem partialPush_push (s0 : RenameState) (b : Nat) (h0 : StateFresh [b] s0)
    (es : List (Nat × Nat)) (s : RenameState) (hp : PartialPush s0 b es s)
    (l n : Nat) : ∃ es', PartialPush s0 b es' (push s b l n) := by
  obtain ⟨hbs, hall, hnd, hlcl⟩ := hp
  by_cases hl : l ∈ es.map Prod.snd
  · -- the top frame for l already belongs to b: in-place overwrite
    obtain ⟨m, hm⟩ := (hlcl l).1 hl
    have hpush := push_eq_overwrite s b l n _ _ hm rfl
    refine ⟨es, ?_, hall, hnd, ?_⟩
    · rw [hpush]; exact hbs
    · intro v
      constructor
      · intro hv
        by_cases hvl : v = l
        · subst hvl
          rw [hpush]
          refine ⟨n, ?_⟩
          simp only [updateStacks]
          simp
        · rw [push_lclStacks_other s b l n v hvl]
          exact (hlcl v).1 hv
      · intro hv
        have hvl : v ≠ l := fun h => hv (h ▸ hl)
        rw [push_lclStacks_other s b l n v hvl]
        exact (hlcl v).2 hv
  · -- a fresh frame is linked on both stacks
    have hsl : s.lclStacks l = s0.lclStacks l := (hlcl l).2 hl
    have hpush : push s b l n =
        { lclStacks := updateStacks s.lclStacks l (Frame.mk b n :: s0.lclStacks l)
          blockStack := (b, l) :: s.blockStack } := by
      cases h0l : s0.lclStacks l with
      | nil =>
        exact push_eq_new_nil s b l n (by rw [hsl, h0l])
      | cons f rest =>
        have hf : f.bbNum ≠ b := by
          have h2 := h0.2 l f (by rw [h0l]; exact List.mem_cons_self _ _)
          simp at h2
          exact h2
        exact push_eq_new_cons s b l n f rest (by rw [hsl, h0l]) hf
    refine ⟨(b, l) :: es, ?_, ?_, ?_, ?_⟩
    · rw [hpush, hbs]; rfl
    · intro e he
      rcases List.mem_cons.mp he with h | h
      · rw [h]
      · exact hall e h
    · rw [List.map_cons]
      exact List.nodup_cons.mpr ⟨hl, hnd⟩
    · intro v
      constructor
      · intro hv
        by_cases hvl : v = l
        · subst hvl
          rw [hpush]
          refine ⟨n, ?_⟩
          simp only [updateStacks]
          simp
        · have hv' : v ∈ es.map Prod.snd := by
            rw [List.map_cons] at hv
            rcases List.mem_cons.mp hv with h | h
            · exact absurd h hvl
            · exact h
          rw [hpush]
          obtain ⟨m, hm⟩ := (hlcl v).1 hv'
          refine ⟨m, ?_⟩
          simp only [updateStacks]
          simp [hvl]
          exact hm
      · intro hv
        have hvl : v ≠ l := by
          intro h
          apply hv
          rw [List.map_cons, h]
          exact List.mem_cons_self _ _
        have hv' : v ∉ es.map Prod.snd := by
          intro h
          apply hv
          rw [List.map_cons]
          exact List.mem_cons_of_mem _ h
        rw [hpush]
        show updateStacks s.lclStacks l (Frame.mk b n :: s0.lclStacks l) v = s0.lclStacks v
        rw [updateStacks_other _ _ _ _ hvl]
        exact (hlcl v).2 hv'

theorem partialPush_pushList (s0 : RenameState) (b : Nat) (h0 : StateFresh [b] s0) :
    ∀ (ps : List (Nat × Nat)) (es : List (Nat × Nat)) (s : RenameState),
      PartialPush s0 b es s → ∃ es', PartialPush s0 b es' (pushList s b ps)
  | [], es, s, hp => ⟨es, hp⟩
  | (l, n) :: ps, es, s, hp => by
    obtain ⟨es', hp'⟩ := partialPush_push s0 b h0 es s hp l n
    exact partialPush_pushList s0 b h0 ps es' (push s b l n) hp'

theorem popLoop_undo (b : Nat) :
    ∀ (es : List (Nat × Nat)) (L : Nat → List Frame) (s0 : RenameState),
      (∀ e ∈ es, e.1 = b) → (es.map Prod.snd).Nodup →
      (∀ l, (l ∈ es.map Prod.snd → ∃ n, L l = Frame.mk b n :: s0.lclStacks l)
          ∧ (l ∉ es.map Prod.snd → L l = s0.lclStacks l)) →
      (∀ e ∈ s0.blockStack, e.1 ≠ b) →
      popLoop L (es ++ s0.blockStack) b = (s0.lclStacks, s0.blockStack) := by
  intro es
  induction es with
  | nil =>
    intro L s0 _ _ hlcl hb0
    have hL : L = s0.lclStacks := by
      funext l
      exact (hlcl l).2 (by simp)
    cases hbs : s0.blockStack with
    | nil => simp [popLoop, hL, hbs]
    | cons e rest =>
      obtain ⟨b1, l1⟩ := e
      have hne : b1 ≠ b := by
        have := hb0 (b1, l1) (by rw [hbs]; exact List.mem_cons_self _ _)
        exact this
      simp only [List.nil_append, hbs, popLoop]
      rw [if_neg hne, hL]
  | cons e es ih =>
    intro L s0 hall hnd hlcl hb0
    obtain ⟨b1, l⟩ := e
    have hb1 : b1 = b := hall (b1, l) (List.mem_cons_self _ _)
    subst hb1
    rw [List.map_cons] at hnd
    have hnotin : l ∉ es.map Prod.snd := (List.nodup_cons.mp hnd).1
    have hnd' : (es.map Prod.snd).Nodup := (List.nodup_cons.mp hnd).2
    have hl : l ∈ ((b1, l) :: es).map Prod.snd := by
      rw [List.map_cons]; exact List.mem_cons_self _ _
    obtain ⟨n, hn⟩ := (hlcl l).1 hl
    simp only [List.cons_append, popLoop, if_pos rfl]
    have harg : updateStacks L l ((L l).tail) = updateStacks L l (s0.lclStacks l) := by
      rw [hn, List.tail_cons]
    rw [harg]
    apply ih
    · intro e he; exact hall e (List.mem_cons_of_mem _ he)
    · exact hnd'
    · intro v
      constructor
      · intro hv
        have hvl : v ≠ l := fun h => hnotin (h ▸ hv)
        rw [updateStacks_other _ _ _ _ hvl]
        exact (hlcl v).1 (by rw [List.map_cons]; exact List.mem_cons_of_mem _ hv)
      · intro hv
        by_cases hvl : v = l
        · subst hvl; rw [updateStacks_self]
        · rw [updateStacks_other _ _ _ _ hvl]
          exact (hlcl v).2 (by
            intro h
            rw [List.map_cons] at h
            rcases List.mem_cons.mp h with h' | h'
            · exact hvl h'
            · exact hv h')
    · exact hb0

/-- Pushing any sequence of definitions for block `b` on a state holding no `b`
frame and then calling `PopBlockStacks b` restores the state exactly. -/
theorem pushList_pop (s0 : RenameState) (b : Nat) (h0 : StateFresh [b] s0)
    (ps : List (Nat × Nat)) :
    popBlockStacks (pushList s0 b ps) b = s0 := by
  have hinit : PartialPush s0 b [] s0 := by
    refine ⟨by simp, by simp, by simp, ?_⟩
    intro l
    exact ⟨fun h => absurd h (by simp), fun _ => rfl⟩
  obtain ⟨es, hbs, hall, hnd, hlcl⟩ := partialPush_pushList s0 b h0 ps [] s0 hinit
  have hb0 : ∀ e ∈ s0.blockStack, e.1 ≠ b := by
    intro e he
    have h1 := h0.1 e he
    simp at h1
    exact h1
  unfold popBlockStacks
  rw [hbs, popLoop_undo b es _ s0 hall hnd hlcl hb0]

end SsaRename

namespace SsaRename

theorem stateFresh_mono (A B : List Nat) (s : RenameState) (h : StateFresh A s)
    (hsub : ∀ x ∈ B, x ∈ A) : StateFresh B s :=
  ⟨fun e he hB => h.1 e he (hsub _ hB), fun v f hf hB => h.2 v f hf (hsub _ hB)⟩

mutual
/-- Running a completed, fully popped subtree whose block numbers are fresh for
the current state restores the state exactly. -/
theorem runTree_restore : ∀ (t : DomTree) (s : RenameState),
    StateFresh (treeIds t) s → (treeIds t).Nodup → runTree s t = s
  | .node b items, s, hf, hnd => by
    have hids : treeIds (DomTree.node b items) = b :: itemIds items := rfl
    rw [hids] at hf hnd
    have hb : b ∉ itemIds items := (List.nodup_cons.mp hnd).1
    have hnd' : (itemIds items).Nodup := (List.nodup_cons.mp hnd).2
    have hfi : StateFresh (itemIds items) s :=
      stateFresh_mono _ _ s hf (fun x hx => List.mem_cons_of_mem _ hx)
    have h1 : runItems s b items = pushList s b (directPushes items) :=
      runItems_pure items b s hfi hnd' hb
    have h0 : StateFresh [b] s :=
      stateFresh_mono _ _ s hf (by intro x hx; simp at hx; rw [hx]; exact List.mem_cons_self _ _)
    show popBlockStacks (runItems s b items) b = s
    rw [h1]
    exact pushList_pop s b h0 _
/-- Running a block's item sequence equals performing just its direct pushes:
every completed subtree inside it cancels out. -/
theorem runItems_pure : ∀ (items : DomItems) (b : Nat) (s : RenameState),
    StateFresh (itemIds items) s → (itemIds items).Nodup → b ∉ itemIds items →
    runItems s b items = pushList s b (directPushes items)
  | .nil, _, _, _, _, _ => rfl
  | .pushI l n rest, b, s, hf, hnd, hb => by
    show runItems (push s b l n) b rest = pushList (push s b l n) b (directPushes rest)
    exact runItems_pure rest b (push s b l n) (push_fresh s _ b l n hb hf) hnd hb
  | .subI t rest, b, s, hf, hnd, hb => by
    have hids : itemIds (DomItems.subI t rest) = treeIds t ++ itemIds rest := rfl
    rw [hids] at hf hnd hb
    have h1 : runTree s t = s :=
      runTree_restore t s
        (stateFresh_mono _ _ s hf (fun x hx => List.mem_append.mpr (Or.inl hx)))
        hnd.of_append_left
    show runItems (runTree s t) b rest = pushList s b (directPushes rest)
    rw [h1]
    exact runItems_pure rest b s
      (stateFresh_mono _ _ s hf (fun x hx => List.mem_append.mpr (Or.inr hx)))
      hnd.of_append_right
      (fun h => hb (List.mem_append.mpr (Or.inr h)))
end

theorem pushList_fresh_apply (A : List Nat) (b : Nat) (hb : b ∉ A)
    (ps : List (Nat × Nat)) (s : RenameState) (hs : StateFresh A s) :
    StateFresh A (pushList s b ps) :=
  pushList_fresh A b hb ps s hs

/-- A well-nested execution from a fresh state equals the push-only replay. -/
theorem execPath_pure : ∀ (p : List (Nat × DomItems)) (s : RenameState),
    (pathIds p).Nodup → StateFresh (pathIds p) s → execPath s p = execPure s p
  | [], _, _, _ => rfl
  | (b, items) :: rest, s, hnd, hf => by
    have hids : pathIds ((b, items) :: rest) = b :: (itemIds items ++ pathIds rest) := rfl
    rw [hids] at hnd hf
    have hbni := (List.nodup_cons.mp hnd).1
    have hnd2 := (List.nodup_cons.mp hnd).2
    have hb_items : b ∉ itemIds items := fun h => hbni (List.mem_append.mpr (Or.inl h))
    have hb_rest : b ∉ pathIds rest := fun h => hbni (List.mem_append.mpr (Or.inr h))
    have hfi : StateFresh (itemIds items) s :=
      stateFresh_mono _ _ s hf
        (fun x hx => List.mem_cons_of_mem _ (List.mem_append.mpr (Or.inl hx)))
    have h1 : runItems s b items = pushList s b (directPushes items) :=
      runItems_pure items b s hfi hnd2.of_append_left hb_items
    show execPath (runItems s b items) rest = execPure (pushList s b (directPushes items)) rest
    rw [h1]
    exact execPath_pure rest _ hnd2.of_append_right
      (pushList_fresh_apply _ b hb_rest _ s
        (stateFresh_mono _ _ s hf
          (fun x hx => List.mem_cons_of_mem _ (List.mem_append.mpr (Or.inr hx)))))

theorem foldl_lastVal (v : Nat) : ∀ (ps : List (Nat × Nat)) (acc : Option Nat),
    ps.foldl (fun a e => if e.1 = v then some e.2 else a) acc = (lastVal ps v).elim acc some
  | [], _ => rfl
  | e :: ps, acc => by
    show List.foldl _ (if e.1 = v then some e.2 else acc) ps = _
    rw [foldl_lastVal v ps (if e.1 = v then some e.2 else acc)]
    have h2 : lastVal (e :: ps) v = (lastVal ps v).elim (if e.1 = v then some e.2 else none) some := by
      show List.foldl _ (if e.1 = v then some e.2 else none) ps = _
      rw [foldl_lastVal v ps (if e.1 = v then some e.2 else none)]
    rw [h2]
    cases lastVal ps v <;> by_cases he : e.1 = v <;> simp [he]

theorem lastVal_append (xs ys : List (Nat × Nat)) (v : Nat) :
    lastVal (xs ++ ys) v = (lastVal ys v).elim (lastVal xs v) some := by
  show List.foldl _ none (xs ++ ys) = _
  rw [List.foldl_append, foldl_lastVal v ys (List.foldl _ none xs)]
  rfl

theorem pushList_lcl_top (b v : Nat) : ∀ (ps : List (Nat × Nat)) (s : RenameState)
    (m : Nat) (old : List Frame), s.lclStacks v = Frame.mk b m :: old →
    (pushList s b ps).lclStacks v = Frame.mk b ((lastVal ps v).getD m) :: old
  | [], s, m, old, h => by
    show s.lclStacks v = _
    rw [h]
    rfl
  | (l, n) :: ps, s, m, old, h => by
    by_cases hl : l = v
    · subst hl
      have hpush := push_eq_overwrite s b l n (Frame.mk b m) old h rfl
      have hs' : (push s b l n).lclStacks l = Frame.mk b n :: old := by
        rw [hpush]
        show updateStacks s.lclStacks l (Frame.mk b n :: old) l = _
        rw [updateStacks_self]
      have hrec := pushList_lcl_top b l ps (push s b l n) n old hs'
      show (pushList (push s b l n) b ps).lclStacks l = _
      rw [hrec]
      have h2 : lastVal ((l, n) :: ps) l = (lastVal ps l).elim (some n) some := by
        show List.foldl _ (if l = l then some n else none) ps = _
        rw [if_pos rfl, foldl_lastVal l ps (some n)]
      rw [h2]
      cases lastVal ps l <;> simp
    · have hvl : v ≠ l := fun h' => hl h'.symm
      have hs' : (push s b l n).lclStacks v = Frame.mk b m :: old := by
        rw [push_lclStacks_other s b l n v hvl]; exact h
      have hrec := pushList_lcl_top b v ps (push s b l n) m old hs'
      show (pushList (push s b l n) b ps).lclStacks v = _
      rw [hrec]
      have h2 : lastVal ((l, n) :: ps) v = lastVal ps v := by
        show List.foldl _ (if l = v then some n else none) ps = _
        rw [if_neg hl]
        rfl
      rw [h2]

theorem pushList_lcl (b v : Nat) : ∀ (ps : List (Nat × Nat)) (s : RenameState),
    (∀ f ∈ s.lclStacks v, f.bbNum ≠ b) →
    (pushList s b ps).lclStacks v =
      (lastVal ps v).elim (s.lclStacks v) (fun n => Frame.mk b n :: s.lclStacks v)
  | [], s, _ => rfl
  | (l, n) :: ps, s, hfr => by
    by_cases hl : l = v
    · subst hl
      have hs' : (push s b l n).lclStacks l = Frame.mk b n :: s.lclStacks l := by
        cases hsl : s.lclStacks l with
        | nil =>
          rw [push_eq_new_nil s b l n hsl]
          show updateStacks s.lclStacks l [Frame.mk b n] l = _
          rw [updateStacks_self]
        | cons f rest =>
          have hfb : f.bbNum ≠ b := hfr f (by rw [hsl]; exact List.mem_cons_self _ _)
          rw [push_eq_new_cons s b l n f rest hsl hfb]
          show updateStacks s.lclStacks l (Frame.mk b n :: f :: rest) l = _
          rw [updateStacks_self]
      have hrec := pushList_lcl_top b l ps (push s b l n) n (s.lclStacks l) hs'
      show (pushList (push s b l n) b ps).lclStacks l = _
      rw [hrec]
      have h2 : lastVal ((l, n) :: ps) l = (lastVal ps l).elim (some n) some := by
        show List.foldl _ (if l = l then some n else none) ps = _
        rw [if_pos rfl, foldl_lastVal l ps (some n)]
      rw [h2]
      cases lastVal ps l <;> simp
    · have hvl : v ≠ l := fun h' => hl h'.symm
      have hs' : (push s b l n).lclStacks v = s.lclStacks v :=
        push_lclStacks_other s b l n v hvl
      have hrec := pushList_lcl b v ps (push s b l n) (by rw [hs']; exact hfr)
      show (pushList (push s b l n) b ps).lclStacks v = _
      rw [hrec, hs']
      have h2 : lastVal ((l, n) :: ps) v = lastVal ps v := by
        show List.foldl _ (if l = v then some n else none) ps = _
        rw [if_neg hl]
        rfl
      rw [h2]

/-- The stack of frames variable `v` holds after the push-only replay of a path:
one frame per open block that directly pushed `v`, innermost first, carrying the
last version that block pushed. -/
def pathFrames : List (Nat × DomItems) → Nat → List Frame
  | [], _ => []
  | (b, items) :: rest, v =>
    pathFrames rest v ++ (lastVal (directPushes items) v).elim [] (fun n => [Frame.mk b n])

theorem execPure_lcl (v : Nat) : ∀ (p : List (Nat × DomItems)) (s : RenameState),
    (pathOpenIds p).Nodup →
    (∀ f ∈ s.lclStacks v, f.bbNum ∉ pathOpenIds p) →
    (execPure s p).lclStacks v = pathFrames p v ++ s.lclStacks v
  | [], _, _, _ => rfl
  | (b, items) :: rest, s, hnd, hfr => by
    have hopen : pathOpenIds ((b, items) :: rest) = b :: pathOpenIds rest := rfl
    rw [hopen] at hnd hfr
    have hb_rest : b ∉ pathOpenIds rest := (List.nodup_cons.mp hnd).1
    have hnd' : (pathOpenIds rest).Nodup := (List.nodup_cons.mp hnd).2
    have hfr_b : ∀ f ∈ s.lclStacks v, f.bbNum ≠ b := by
      intro f hf heq
      exact hfr f hf (by rw [heq]; exact List.mem_cons_self _ _)
    have h1 := pushList_lcl b v (directPushes items) s hfr_b
    have hfr' : ∀ f ∈ (pushList s b (directPushes items)).lclStacks v,
        f.bbNum ∉ pathOpenIds rest := by
      intro f hf
      rw [h1] at hf
      cases hmv : lastVal (directPushes items) v with
      | none =>
        rw [hmv] at hf
        exact fun h => hfr f hf (List.mem_cons_of_mem _ h)
      | some n =>
        rw [hmv] at hf
        rcases List.mem_cons.mp hf with h | h
        · rw [h]; exact hb_rest
        · exact fun h' => hfr f h (List.mem_cons_of_mem _ h')
    show (execPure (pushList s b (directPushes items)) rest).lclStacks v = _
    rw [execPure_lcl v rest (pushList s b (directPushes items)) hnd' hfr', h1]
    show _ = (pathFrames rest v ++ _) ++ _
    cases lastVal (directPushes items) v <;> simp

theorem pathFrames_head (v : Nat) : ∀ (p : List (Nat × DomItems)),
    (pathFrames p v).head?.map Frame.ssaNum = currentPathTop p v
  | [] => rfl
  | (b, items) :: rest => by
    have ih := pathFrames_head v rest
    have hc : currentPathTop ((b, items) :: rest) v =
        (currentPathTop rest v).elim (lastVal (directPushes items) v) some := by
      show lastVal (directPushes items ++ pathPushes rest) v = _
      rw [lastVal_append]
      rfl
    rw [hc]
    show ((pathFrames rest v ++
      (lastVal (directPushes items) v).elim [] (fun n => [Frame.mk b n])).head?).map Frame.ssaNum = _
    cases hpf : pathFrames rest v with
    | nil =>
      rw [hpf] at ih
      simp only [List.head?_nil, Option.map_none'] at ih
      rw [← ih]
      cases lastVal (directPushes items) v <;> simp
    | cons f fs =>
      rw [hpf] at ih
      simp only [List.head?_cons, Option.map_some'] at ih
      rw [← ih]
      simp

theorem pathOpenIds_sublist : ∀ (p : List (Nat × DomItems)),
    (pathOpenIds p).Sublist (pathIds p)
  | [] => List.Sublist.refl _
  | (b, items) :: rest => by
    show (b :: pathOpenIds rest).Sublist (b :: (itemIds items ++ pathIds rest))
    exact List.Sublist.cons₂ b
      ((pathOpenIds_sublist rest).trans (List.sublist_append_right _ _))

/-- C1: for every variable `v` and every well-nested sequence of
Push/PopBlockStacks calls arising from a simulated dominator walk (each block's
single pop at its exit, after its pushes and its completed descendants),
`CountForUse v` returns the version most recently pushed for `v` on the current
path of open blocks, and the Uninitialized sentinel if no version was ever
pushed for `v` on that path. -/
theorem claim_C1 (p : List (Nat × DomItems)) (v : Nat)
    (hnd : (pathIds p).Nodup) :
    countForUse (execPath emptyRenameState p) v =
      (currentPathTop p v).getD UNINIT_SSA_NUM := by
  have hfresh : StateFresh (pathIds p) emptyRenameState :=
    ⟨by intro e he; simp [emptyRenameState] at he, by intro w f hf; simp [emptyRenameState] at hf⟩
  rw [execPath_pure p emptyRenameState hnd hfresh]
  have hnd_open : (pathOpenIds p).Nodup := hnd.sublist (pathOpenIds_sublist p)
  have hfr : ∀ f ∈ emptyRenameState.lclStacks v, f.bbNum ∉ pathOpenIds p := by
    intro f hf; simp [emptyRenameState] at hf
  have h1 := execPure_lcl v p emptyRenameState hnd_open hfr
  have h1' : (execPure emptyRenameState p).lclStacks v = pathFrames p v := by
    rw [h1]
    show _ ++ ([] : List Frame) = _
    rw [List.append_nil]
  have h2 := pathFrames_head v p
  unfold countForUse
  rw [h1']
  cases hpf : pathFrames p v with
  | nil =>
    rw [hpf] at h2
    simp only [List.head?_nil, Option.map_none'] at h2
    rw [← h2]
    rfl
  | cons f fs =>
    rw [hpf] at h2
    simp only [List.head?_cons, Option.map_some'] at h2
    rw [← h2]
    rfl

def pathC1 : List (Nat × DomItems) :=
  [(1, DomItems.pushI 5 9 (DomItems.subI
        (DomTree.node 2 (DomItems.pushI 5 11 DomItems.nil)) DomItems.nil)),
   (3, DomItems.pushI 6 4 DomItems.nil)]

/-- Witness for C1 at a concrete walk: block 1 pushes version 9 for local 5, a
completed child block 2 pushes and pops version 11, block 3 pushes version 4 for
local 6; local 5 reads 9, local 7 reads the sentinel. -/
theorem claim_C1_witness :
    (pathIds pathC1).Nodup ∧
    countForUse (execPath emptyRenameState pathC1) 5 = 9 ∧
    countForUse (execPath emptyRenameState pathC1) 7 = UNINIT_SSA_NUM := by
  refine ⟨by decide, ?_, ?_⟩
  · rw [claim_C1 pathC1 5 (by decide)]; decide
  · rw [claim_C1 pathC1 7 (by decide)]; decide

end SsaRename

namespace SsaRename

theorem pathIds_append : ∀ (p q : List (Nat × DomItems)),
    pathIds (p ++ q) = pathIds p ++ pathIds q
  | [], _ => rfl
  | (b, items) :: rest, q => by
    show b :: (itemIds items ++ pathIds (rest ++ q)) =
      (b :: (itemIds items ++ pathIds rest)) ++ pathIds q
    rw [pathIds_append rest q]
    simp [List.append_assoc]

theorem execPure_append : ∀ (p q : List (Nat × DomItems)) (s : RenameState),
    execPure s (p ++ q) = execPure (execPure s p) q
  | [], _, _ => rfl
  | (b, items) :: rest, q, s => execPure_append rest q (pushList s b (directPushes items))

theorem execPure_fresh (A : List Nat) : ∀ (p : List (Nat × DomItems)) (s : RenameState),
    StateFresh A s → (∀ c ∈ pathOpenIds p, c ∉ A) → StateFresh A (execPure s p)
  | [], _, hs, _ => hs
  | (b, items) :: rest, s, hs, hdisj => by
    have hb : b ∉ A := hdisj b (List.mem_cons_self _ _)
    exact execPure_fresh A rest _
      (pushList_fresh A b hb (directPushes items) s hs)
      (fun c hc => hdisj c (List.mem_cons_of_mem _ hc))

theorem popLoop_cons (L : Nat → List Frame) (b1 l b : Nat) (rest : List (Nat × Nat)) :
    popLoop L ((b1, l) :: rest) b =
      if b1 = b then popLoop (updateStacks L l ((L l).tail)) rest b
      else (L, (b1, l) :: rest) := rfl

theorem popLoop_head_ne (b : Nat) : ∀ (bs : List (Nat × Nat)) (L : Nat → List Frame)
    (e : Nat × Nat), (popLoop L bs b).2.head? = some e → e.1 ≠ b
  | [], L, e, h => by simp [popLoop] at h
  | (b1, l) :: rest, L, e, h => by
    by_cases hb : b1 = b
    · rw [popLoop_cons, if_pos hb] at h
      exact popLoop_head_ne b rest _ e h
    · rw [popLoop_cons, if_neg hb] at h
      have he : (b1, l) = e := by simpa using h
      rw [← he]
      exact hb

theorem popBlockStacks_eq (s : RenameState) (b : Nat) :
    popBlockStacks s b = { lclStacks := (popLoop s.lclStacks s.blockStack b).1
                           blockStack := (popLoop s.lclStacks s.blockStack b).2 } := rfl

/-- Popping the same block twice in a row changes nothing the second time:
after the first `PopBlockStacks b`, the block stack's front no longer belongs
to `b`, so the loop body never runs. This holds for every state. -/
theorem popBlockStacks_idem (s : RenameState) (b : Nat) :
    popBlockStacks (popBlockStacks s b) b = popBlockStacks s b := by
  have key : ∀ (L : Nat → List Frame) (bs : List (Nat × Nat)),
      popLoop (popLoop L bs b).1 (popLoop L bs b).2 b = popLoop L bs b := by
    intro L bs
    cases h2 : (popLoop L bs b).2 with
    | nil =>
      have e1 : popLoop (popLoop L bs b).1 [] b = ((popLoop L bs b).1, []) := rfl
      rw [e1, ← h2]
    | cons e rest =>
      obtain ⟨b1, l⟩ := e
      have hne : b1 ≠ b := popLoop_head_ne b bs L (b1, l) (by rw [h2]; rfl)
      rw [popLoop_cons, if_neg hne, ← h2]
  rw [popBlockStacks_eq s b, popBlockStacks_eq]
  show ({ lclStacks := (popLoop (popLoop s.lclStacks s.blockStack b).1
            (popLoop s.lclStacks s.blockStack b).2 b).1
          blockStack := (popLoop (popLoop s.lclStacks s.blockStack b).1
            (popLoop s.lclStacks s.blockStack b).2 b).2 } : RenameState) = _
  rw [key s.lclStacks s.blockStack]

/-- C8: upon the well-nested exit of block `b` (state reached by a walk whose
current path ends with `b`), one `PopBlockStacks b` leaves no frame of any
variable referencing `b`, and an immediately repeated `PopBlockStacks b` pops
nothing: it leaves every variable's stack and the global block stack unchanged. -/
theorem claim_C8 (p : List (Nat × DomItems)) (b : Nat) (items : DomItems)
    (hnd : (pathIds (p ++ [(b, items)])).Nodup) :
    (∀ v f, f ∈ (popBlockStacks (execPath emptyRenameState (p ++ [(b, items)])) b).lclStacks v
        → f.bbNum ≠ b)
    ∧ popBlockStacks (popBlockStacks (execPath emptyRenameState (p ++ [(b, items)])) b) b
        = popBlockStacks (execPath emptyRenameState (p ++ [(b, items)])) b := by
  refine ⟨?_, popBlockStacks_idem _ b⟩
  have hfresh0 : StateFresh (pathIds (p ++ [(b, items)])) emptyRenameState :=
    ⟨by intro e he; simp [emptyRenameState] at he, by intro w f hf; simp [emptyRenameState] at hf⟩
  rw [execPath_pure _ _ hnd hfresh0, execPure_append]
  have hids := pathIds_append p [(b, items)]
  have hbp : b ∉ pathIds p := by
    rw [hids] at hnd
    have hdisj := (List.nodup_append.mp hnd).2.2
    intro hb'
    exact hdisj hb' (by show b ∈ b :: (itemIds items ++ pathIds []); exact List.mem_cons_self _ _)
  have h0 : StateFresh [b] (execPure emptyRenameState p) := by
    apply execPure_fresh
    · exact ⟨by intro e he; simp [emptyRenameState] at he, by intro w f hf; simp [emptyRenameState] at hf⟩
    · intro c hc hcb
      simp at hcb
      rw [hcb] at hc
      exact hbp ((pathOpenIds_sublist p).subset hc)
  have hstep : execPure (execPure emptyRenameState p) [(b, items)] =
      pushList (execPure emptyRenameState p) b (directPushes items) := rfl
  rw [hstep, pushList_pop _ b h0 _]
  intro v f hf heq
  have h2 := h0.2 v f hf
  simp at h2
  exact h2 heq

def pathC8 : List (Nat × DomItems) := [(1, DomItems.pushI 4 9 DomItems.nil)]

def itemsC8 : DomItems := DomItems.pushI 4 12 (DomItems.pushI 6 2 DomItems.nil)

/-- Witness for C8 at a concrete walk: block 1 pushes local 4, block 2 pushes
locals 4 and 6, then block 2 exits; the repeated pop is a no-op. -/
theorem claim_C8_witness :
    popBlockStacks (popBlockStacks (execPath emptyRenameState (pathC8 ++ [(2, itemsC8)])) 2) 2
      = popBlockStacks (execPath emptyRenameState (pathC8 ++ [(2, itemsC8)])) 2 :=
  (claim_C8 pathC8 2 itemsC8 (by decide)).2

def memStateC9 : MemoryState := pushMemory true emptyMemoryState MemoryKind.GcHeap 1 2

/-- C9 counterexample: with `byrefStatesMatchGcHeapStates` set, a push requested
for GcHeap lands on the ByrefExposed stack, but `PopBlockMemoryStack` requested
for GcHeap is NOT redirected: it leaves the ByrefExposed stack untouched,
unlike the redirected pop the claim describes. -/
theorem claim_C9_counterexample :
    (popBlockMemoryStack memStateC9 MemoryKind.GcHeap 1).memStacks MemoryKind.ByrefExposed
      ≠ (popBlockMemoryStack memStateC9 MemoryKind.ByrefExposed 1).memStacks MemoryKind.ByrefExposed := by
  decide

/-- C9 (amended): with the aliasing flag set, the current-version query and the
push requested for GcHeap are transparently redirected to ByrefExposed, but the
block pop is not redirected: a pop requested for GcHeap operates on the (never
pushed, hence empty) GcHeap stack and leaves the ByrefExposed stack unchanged. -/
theorem claim_C9 (s : MemoryState) (bbNum count : Nat) :
    countForMemoryUse true s MemoryKind.GcHeap
        = countForMemoryUse true s MemoryKind.ByrefExposed
    ∧ pushMemory true s MemoryKind.GcHeap bbNum count
        = pushMemory true s MemoryKind.ByrefExposed bbNum count
    ∧ (popBlockMemoryStack s MemoryKind.GcHeap bbNum).memStacks MemoryKind.ByrefExposed
        = s.memStacks MemoryKind.ByrefExposed
    ∧ (popBlockMemoryStack s MemoryKind.GcHeap bbNum).memStacks MemoryKind.GcHeap
        = (s.memStacks MemoryKind.GcHeap).dropWhile (fun e => e.1 = bbNum) := by
  refine ⟨?_, ?_, ?_, ?_⟩
  · rfl
  · rfl
  · simp only [popBlockMemoryStack]
    rw [if_neg (by decide)]
  · simp [popBlockMemoryStack]

end SsaRename

namespace EarlyProp

/-- The value types relevant to the embedded earlyprop code (`var_types`). -/
inductive Ty where
  | tINT
  | tLONG
  | tREF
  | tBYREF
  | tOTHER
deriving Repr, DecidableEq

/-- The allocation helper identities compared against in
`getArrayLengthFromAllocation` / `getObjectHandleNodeFromAllocation`
(earlyprop.cpp:81-85, 116-126); `otherHelper` stands for any other helper. -/
inductive HelperId where
  | NEWARR_1_DIRECT
  | NEWARR_1_R2R_DIRECT
  | NEWARR_1_OBJ
  | NEWARR_1_VC
  | NEWARR_1_ALIGN8
  | NEWFAST
  | NEWSFAST
  | NEWSFAST_FINALIZE
  | NEWSFAST_ALIGN8
  | NEWSFAST_ALIGN8_VC
  | NEWSFAST_ALIGN8_FINALIZE
  | otherHelper
deriving Repr, DecidableEq

/-- Comparison operators of the relops fed to `GT_JTRUE`. -/
inductive CmpOper where
  | EQ
  | NE
  | LTcmp
  | LEcmp
  | GTcmp
  | GEcmp
deriving Repr, DecidableEq

/-- The expression-tree shapes the embedded earlyprop code inspects. A `cmp`
node carries its `GTF_REVERSE_OPS` and `GTF_RELOP_JMP_USED` flags; an
`arrLength` node carries its `GTF_ARRLEN_ARR_IDX` flag; an `other` node stands
for any tree shape the pass does not inspect, with its own side-effect summary
flags (whether its subtree contains a side effect / a globally visible one). -/
inductive GenTree where
  | cnsInt (ty : Ty) (value : Int)
  | lclVar (ty : Ty) (lclNum ssaNum : Nat)
  | lclFld (ty : Ty) (lclNum ssaNum : Nat)
  | ind (addr : GenTree)
  | nullchk (addr : GenTree)
  | addrMode (base : GenTree) (index : Option GenTree)
  | arrLength (arr : GenTree) (isArrIdx : Bool)
  | boundsChk (index : GenTree) (arrLen : GenTree)
  | comma (op1 op2 : GenTree)
  | addOp (op1 op2 : GenTree)
  | asg (lhs rhs : GenTree)
  | call (isHelperCall : Bool) (helper : HelperId) (args : List GenTree)
  | cmp (oper : CmpOper) (reverseOps jmpUsed : Bool) (op1 op2 : GenTree)
  | phi
  | jtrue (cond : GenTree)
  | other (ty : Ty) (sideEff globEff : Bool)

/-- `GenTree::OperIsScalarLocal` (GT_LCL_VAR or GT_LCL_FLD). -/
def operIsScalarLocal : GenTree → Bool
  | .lclVar _ _ _ => true
  | .lclFld _ _ _ => true
  | _ => false

/-- `AsLclVarCommon()->GetLclNum()` (meaningful only on scalar locals). -/
def getLclNum : GenTree → Nat
  | .lclVar _ l _ => l
  | .lclFld _ l _ => l
  | _ => 0

/-- `AsLclVarCommon()->GetSsaNum()` (meaningful only on scalar locals). -/
def getSsaNum : GenTree → Nat
  | .lclVar _ _ s => s
  | .lclFld _ _ s => s
  | _ => 0

/-- `GenTree::IsCnsIntOrI`. -/
def isCnsIntOrI : GenTree → Bool
  | .cnsInt _ _ => true
  | _ => false

/-- `AsIntCon()->IconValue()` (meaningful only on integer constants). -/
def iconValue : GenTree → Int
  | .cnsInt _ v => v
  | _ => 0

/-- `GenTree::TypeGet` for the shapes the pass compares types of; a
`GT_ARR_LENGTH` node is always `TYP_INT` (earlyprop.cpp:313-314). -/
def gtType : GenTree → Ty
  | .cnsInt ty _ => ty
  | .lclVar ty _ _ => ty
  | .lclFld ty _ _ => ty
  | .arrLength _ _ => Ty.tINT
  | .other ty _ _ => ty
  | _ => Ty.tOTHER

/-- The in-place width narrowing of `optEarlyPropRewriteTree`
(earlyprop.cpp:358-364): the cloned constant's type is overwritten with the
rewritten site's type. -/
def retype : GenTree → Ty → GenTree
  | .cnsInt _ v, ty => .cnsInt ty v
  | t, _ => t

/-- `Compiler::getArrayLengthFromAllocation` (earlyprop.cpp:71-94): for a helper
call to one of the five array-allocation helpers, return argument 1 (the
length); otherwise nothing. -/
def getArrayLengthFromAllocation : GenTree → Option GenTree
  | .call true h args =>
    if h = .NEWARR_1_DIRECT ∨ h = .NEWARR_1_R2R_DIRECT ∨ h = .NEWARR_1_OBJ ∨
       h = .NEWARR_1_VC ∨ h = .NEWARR_1_ALIGN8 then
      args[1]?
    else none
  | _ => none

/-- `Compiler::getObjectHandleNodeFromAllocation` (earlyprop.cpp:106-136): for a
helper call to one of the object- or array-allocation helpers, return argument 0
(the runtime type handle); otherwise nothing. -/
def getObjectHandleNodeFromAllocation : GenTree → Option GenTree
  | .call true h args =>
    if h = .NEWFAST ∨ h = .NEWSFAST ∨ h = .NEWSFAST_FINALIZE ∨ h = .NEWSFAST_ALIGN8 ∨
       h = .NEWSFAST_ALIGN8_VC ∨ h = .NEWSFAST_ALIGN8_FINALIZE ∨ h = .NEWARR_1_DIRECT ∨
       h = .NEWARR_1_R2R_DIRECT ∨ h = .NEWARR_1_OBJ ∨ h = .NEWARR_1_VC ∨ h = .NEWARR_1_ALIGN8 then
      args[0]?
    else none
  | _ => none

/-- `Compiler::optPropKind` (the tracked value kinds). -/
inductive OptPropKind where
  | OPK_INVALID
  | OPK_ARRAYLEN
  | OPK_OBJ_GETTYPE
deriving Repr, DecidableEq

/-- What `lvaTable[lclNum].GetPerSsaData(ssaNum)->m_defLoc.m_tree` and its
parent look like for a given SSA name: no tree at all (implicit parameter or
live-in definition), the right-hand side of a `GT_ASG` parent, or a parent that
is not an assignment. -/
inductive SsaDefEntry where
  | noTree
  | asgRhs (rhs : GenTree)
  | nonAsgParent

/-- The external state `optPropGetValueRec` consults: SSA membership of locals
(`lvaInSsa`), the SSA definition table, and the recursion bound
`optEarlyPropRecurBound` (declared outside these sources; kept abstract). -/
structure PropEnv where
  lvaInSsa : Nat → Bool
  ssaDef : Nat → Nat → SsaDefEntry
  optEarlyPropRecurBound : Nat

/-- The non-copy arm of `optPropGetValueRec` (earlyprop.cpp:466-491): extract
the helper-call argument selected by the kind and keep it only when it is a
compile-time integer constant. -/
def extractValue (valueKind : OptPropKind) (treeRhs : GenTree) : Option GenTree :=
  match valueKind with
  | .OPK_ARRAYLEN =>
    match getArrayLengthFromAllocation treeRhs with
    | some value => if isCnsIntOrI value then some value else none
    | none => none
  | .OPK_OBJ_GETTYPE =>
    match getObjectHandleNodeFromAllocation treeRhs with
    | some value => if isCnsIntOrI value then some value else none
    | none => none
  | .OPK_INVALID => none

/-- The recursion of `Compiler::optPropGetValueRec` (earlyprop.cpp:422-496),
made structural on a fuel argument so that it computes; the wrapper below
always supplies enough fuel that the `walkDepth > optEarlyPropRecurBound`
guard (checked before any recursive call) fires first, so the fuel-exhaustion
arm is unreachable — see `optPropGetValueRec_step`. -/
def optPropGetValueRecAux (env : PropEnv) (valueKind : OptPropKind) :
    Nat → Nat → Nat → Nat → Option GenTree
  | fuel, lclNum, ssaNum, walkDepth =>
    if ssaNum = SsaRename.RESERVED_SSA_NUM then none
    else if env.optEarlyPropRecurBound < walkDepth then none
    else
      match env.ssaDef lclNum ssaNum with
      | .noTree => none
      | .nonAsgParent => none
      | .asgRhs treeRhs =>
        if operIsScalarLocal treeRhs ∧ env.lvaInSsa (getLclNum treeRhs) then
          match fuel with
          | 0 => none
          | fuel' + 1 =>
            optPropGetValueRecAux env valueKind fuel' (getLclNum treeRhs) (getSsaNum treeRhs)
              (walkDepth + 1)
        else extractValue valueKind treeRhs

/-- `Compiler::optPropGetValueRec` (earlyprop.cpp:422-496). -/
def optPropGetValueRec (env : PropEnv) (lclNum ssaNum : Nat) (valueKind : OptPropKind)
    (walkDepth : Nat) : Option GenTree :=
  optPropGetValueRecAux env valueKind (env.optEarlyPropRecurBound + 1 - walkDepth)
    lclNum ssaNum walkDepth

/-- `Compiler::optPropGetValue` (earlyprop.cpp:404-407): start the recursion at
depth 0. -/
def optPropGetValue (env : PropEnv) (lclNum ssaNum : Nat) (valueKind : OptPropKind) :
    Option GenTree :=
  optPropGetValueRec env lclNum ssaNum valueKind 0

/-- `optPropGetValueRec` satisfies exactly the source's recursion: sentinel SSA
number, then the depth bound, then the definition-record dispatch, recursing
through plain copies of SSA-eligible locals and otherwise extracting the
allocation-helper argument. -/
theorem optPropGetValueRec_step (env : PropEnv) (lclNum ssaNum : Nat)
    (valueKind : OptPropKind) (walkDepth : Nat) :
    optPropGetValueRec env lclNum ssaNum valueKind walkDepth =
      if ssaNum = SsaRename.RESERVED_SSA_NUM then none
      else if env.optEarlyPropRecurBound < walkDepth then none
      else
        match env.ssaDef lclNum ssaNum with
        | .noTree => none
        | .nonAsgParent => none
        | .asgRhs treeRhs =>
          if operIsScalarLocal treeRhs ∧ env.lvaInSsa (getLclNum treeRhs) then
            optPropGetValueRec env (getLclNum treeRhs) (getSsaNum treeRhs) valueKind
              (walkDepth + 1)
          else extractValue valueKind treeRhs := by
  conv_lhs => unfold optPropGetValueRec optPropGetValueRecAux
  by_cases h1 : ssaNum = SsaRename.RESERVED_SSA_NUM
  · rw [if_pos h1, if_pos h1]
  · rw [if_neg h1, if_neg h1]
    by_cases h2 : env.optEarlyPropRecurBound < walkDepth
    · rw [if_pos h2, if_pos h2]
    · rw [if_neg h2, if_neg h2]
      cases env.ssaDef lclNum ssaNum with
      | noTree => rfl
      | nonAsgParent => rfl
      | asgRhs treeRhs =>
        dsimp only
        by_cases h3 : operIsScalarLocal treeRhs ∧ env.lvaInSsa (getLclNum treeRhs)
        · rw [if_pos h3, if_pos h3]
          have hfe : env.optEarlyPropRecurBound + 1 - walkDepth =
              (env.optEarlyPropRecurBound + 1 - (walkDepth + 1)) + 1 := by omega
          rw [hfe]
          rfl
        · rw [if_neg h3, if_neg h3]

end EarlyProp

namespace EarlyProp

/-- An SSA definition table forming a copy chain: local `i` (for `i < k`) is a
plain copy of local `i + 1`, and local `k` is defined by `finalRhs`; every
local is SSA-eligible. -/
def chainEnv (bound k : Nat) (finalRhs : GenTree) : PropEnv :=
  { lvaInSsa := fun _ => true
    ssaDef := fun l _ =>
      if l < k then SsaDefEntry.asgRhs (.lclVar Ty.tREF (l + 1) SsaRename.FIRST_SSA_NUM)
      else if l = k then SsaDefEntry.asgRhs finalRhs
      else SsaDefEntry.nonAsgParent
    optEarlyPropRecurBound := bound }

/-- Resolution along a copy chain: starting at position `i` with depth `d`,
the value is extracted from the chain's final definition exactly when the
remaining chain length plus the current depth stays within the bound. -/
theorem chainEnv_resolve (bound k : Nat) (finalRhs : GenTree)
    (hrhs : operIsScalarLocal finalRhs = false) (valueKind : OptPropKind)
    (i d : Nat) (hik : i ≤ k) :
    optPropGetValueRec (chainEnv bound k finalRhs) i SsaRename.FIRST_SSA_NUM valueKind d =
      if k - i + d ≤ bound then extractValue valueKind finalRhs else none := by
  rw [optPropGetValueRec_step]
  rw [if_neg (by decide : ¬(SsaRename.FIRST_SSA_NUM = SsaRename.RESERVED_SSA_NUM))]
  by_cases hd : bound < d
  · rw [if_pos (show (chainEnv bound k finalRhs).optEarlyPropRecurBound < d from hd),
      if_neg (by omega)]
  · rw [if_neg (show ¬(chainEnv bound k finalRhs).optEarlyPropRecurBound < d from hd)]
    by_cases hik2 : i < k
    · have hdef : (chainEnv bound k finalRhs).ssaDef i SsaRename.FIRST_SSA_NUM =
          SsaDefEntry.asgRhs (.lclVar Ty.tREF (i + 1) SsaRename.FIRST_SSA_NUM) := by
        simp [chainEnv, hik2]
      rw [hdef]
      dsimp only
      rw [if_pos ⟨rfl, rfl⟩]
      have hrec := chainEnv_resolve bound k finalRhs hrhs valueKind (i + 1) (d + 1)
        (by omega)
      rw [show getLclNum (GenTree.lclVar Ty.tREF (i + 1) SsaRename.FIRST_SSA_NUM) = i + 1 from rfl,
        show getSsaNum (GenTree.lclVar Ty.tREF (i + 1) SsaRename.FIRST_SSA_NUM) =
          SsaRename.FIRST_SSA_NUM from rfl, hrec]
      have harith : k - (i + 1) + (d + 1) = k - i + d := by omega
      rw [harith]
    · have hik3 : i = k := by omega
      subst hik3
      have hdef : (chainEnv bound i finalRhs).ssaDef i SsaRename.FIRST_SSA_NUM =
          SsaDefEntry.asgRhs finalRhs := by
        simp [chainEnv]
      rw [hdef]
      dsimp only
      rw [if_neg (by
        intro hcontra
        rw [hrhs] at hcontra
        exact Bool.noConfusion hcontra.1)]
      rw [if_pos (by omega : i - i + d ≤ bound)]
termination_by k - i

/-- C2: `optPropGetValueRec` returns no value when the SSA number is the
reserved "no definition" sentinel, when the definition record's producing tree
is null (implicit parameter/live-in definition), or once the recursion depth
exceeds the fixed bound; and a chain of `k` pure copies ending at a
recognized array-allocation helper with a constant length resolves to that
constant exactly when `k` is within the bound, failing once it exceeds it. -/
theorem claim_C2 :
    (∀ (env : PropEnv) (lclNum : Nat) (valueKind : OptPropKind) (walkDepth : Nat),
        optPropGetValueRec env lclNum SsaRename.RESERVED_SSA_NUM valueKind walkDepth = none)
    ∧ (∀ (env : PropEnv) (lclNum ssaNum : Nat) (valueKind : OptPropKind) (walkDepth : Nat),
        env.ssaDef lclNum ssaNum = SsaDefEntry.noTree →
        optPropGetValueRec env lclNum ssaNum valueKind walkDepth = none)
    ∧ (∀ (env : PropEnv) (lclNum ssaNum : Nat) (valueKind : OptPropKind) (walkDepth : Nat),
        env.optEarlyPropRecurBound < walkDepth →
        optPropGetValueRec env lclNum ssaNum valueKind walkDepth = none)
    ∧ (∀ (bound k : Nat) (h n : Int) (lenTy : Ty),
        optPropGetValue
          (chainEnv bound k (.call true .NEWARR_1_DIRECT [.cnsInt Ty.tREF h, .cnsInt lenTy n]))
          0 SsaRename.FIRST_SSA_NUM .OPK_ARRAYLEN
          = if k ≤ bound then some (.cnsInt lenTy n) else none) := by
  refine ⟨?_, ?_, ?_, ?_⟩
  · intro env lclNum valueKind walkDepth
    rw [optPropGetValueRec_step, if_pos rfl]
  · intro env lclNum ssaNum valueKind walkDepth hdef
    rw [optPropGetValueRec_step]
    by_cases h1 : ssaNum = SsaRename.RESERVED_SSA_NUM
    · rw [if_pos h1]
    · rw [if_neg h1]
      by_cases h2 : env.optEarlyPropRecurBound < walkDepth
      · rw [if_pos h2]
      · rw [if_neg h2, hdef]
  · intro env lclNum ssaNum valueKind walkDepth hbound
    rw [optPropGetValueRec_step]
    by_cases h1 : ssaNum = SsaRename.RESERVED_SSA_NUM
    · rw [if_pos h1]
    · rw [if_neg h1, if_pos hbound]
  · intro bound k h n lenTy
    show optPropGetValueRec _ 0 SsaRename.FIRST_SSA_NUM .OPK_ARRAYLEN 0 = _
    rw [chainEnv_resolve bound k
      (.call true .NEWARR_1_DIRECT [.cnsInt Ty.tREF h, .cnsInt lenTy n])
      rfl .OPK_ARRAYLEN 0 0 (Nat.zero_le k)]
    have harith : k - 0 + 0 = k := by omega
    rw [harith]
    rfl

def envC2 : PropEnv :=
  { lvaInSsa := fun _ => true
    ssaDef := fun _ _ => SsaDefEntry.noTree
    optEarlyPropRecurBound := 5 }

/-- Witness for C2: a concrete no-tree definition resolves to nothing, a
too-deep walk resolves to nothing, and a 3-copy chain within bound 5 resolves
to the allocation's constant length. -/
theorem claim_C2_witness :
    (envC2.ssaDef 1 2 = SsaDefEntry.noTree
      ∧ optPropGetValueRec envC2 1 2 OptPropKind.OPK_ARRAYLEN 0 = none)
    ∧ (envC2.optEarlyPropRecurBound < 6
      ∧ optPropGetValueRec envC2 1 2 OptPropKind.OPK_ARRAYLEN 6 = none)
    ∧ optPropGetValue
        (chainEnv 5 3 (.call true .NEWARR_1_DIRECT [.cnsInt Ty.tREF 0, .cnsInt Ty.tLONG 7]))
        0 SsaRename.FIRST_SSA_NUM .OPK_ARRAYLEN = some (.cnsInt Ty.tLONG 7) := by
  refine ⟨⟨rfl, claim_C2.2.1 envC2 1 2 OptPropKind.OPK_ARRAYLEN 0 rfl⟩,
    ⟨by decide, claim_C2.2.2.1 envC2 1 2 OptPropKind.OPK_ARRAYLEN 6 (by decide)⟩, ?_⟩
  rw [claim_C2.2.2.2 5 3 0 7 Ty.tLONG]
  rfl

end EarlyProp

namespace EarlyProp

/-- The children of a node in operand order (op1 before op2; an address mode
lists its base and, when present, its index; a call lists its arguments). -/
def gtChildren : GenTree → List GenTree
  | .cnsInt _ _ => []
  | .lclVar _ _ _ => []
  | .lclFld _ _ _ => []
  | .ind a => [a]
  | .nullchk a => [a]
  | .addrMode b none => [b]
  | .addrMode b (some i) => [b, i]
  | .arrLength a _ => [a]
  | .boundsChk i l => [i, l]
  | .comma a b => [a, b]
  | .addOp a b => [a, b]
  | .asg a b => [a, b]
  | .call _ _ args => args
  | .cmp _ _ _ a b => [a, b]
  | .phi => []
  | .jtrue c => [c]
  | .other _ _ _ => []

/-- Node identity within a statement: the path of child indices from the root. -/
def nodeAt : List Nat → GenTree → Option GenTree
  | [], t => some t
  | i :: p, t =>
    match (gtChildren t)[i]? with
    | some c => nodeAt p c
    | none => none

mutual
/-- Modelled from the spec: the per-statement execution-order threading
(`gtNext`/`gtPrev`, set by the external `fgSetStmtSeq`) is the operand-first
linear order of the tree — a node follows all of its operands (§6: "per-statement
ordered node list in execution order"). This enumerates node paths in that order. -/
def postorderT (t : GenTree) (path : List Nat) : List (List Nat) :=
  match t with
  | .cnsInt _ _ => [path]
  | .lclVar _ _ _ => [path]
  | .lclFld _ _ _ => [path]
  | .ind a => postorderT a (path ++ [0]) ++ [path]
  | .nullchk a => postorderT a (path ++ [0]) ++ [path]
  | .addrMode b none => postorderT b (path ++ [0]) ++ [path]
  | .addrMode b (some i) => postorderT b (path ++ [0]) ++ postorderT i (path ++ [1]) ++ [path]
  | .arrLength a _ => postorderT a (path ++ [0]) ++ [path]
  | .boundsChk i l => postorderT i (path ++ [0]) ++ postorderT l (path ++ [1]) ++ [path]
  | .comma a b => postorderT a (path ++ [0]) ++ postorderT b (path ++ [1]) ++ [path]
  | .addOp a b => postorderT a (path ++ [0]) ++ postorderT b (path ++ [1]) ++ [path]
  | .asg a b => postorderT a (path ++ [0]) ++ postorderT b (path ++ [1]) ++ [path]
  | .call _ _ args => postorderL args path 0 ++ [path]
  | .cmp _ _ _ a b => postorderT a (path ++ [0]) ++ postorderT b (path ++ [1]) ++ [path]
  | .phi => [path]
  | .jtrue c => postorderT c (path ++ [0]) ++ [path]
  | .other _ _ _ => [path]
/-- Execution-order paths of a call's argument list. -/
def postorderL (ts : List GenTree) (path : List Nat) (i : Nat) : List (List Nat) :=
  match ts with
  | [] => []
  | t :: r => postorderT t (path ++ [i]) ++ postorderL r path (i + 1)
end

/-- The element following `p` in a sequence (first occurrence). -/
def seqNext : List (List Nat) → List Nat → Option (List Nat)
  | [], _ => none
  | a :: rest, p => if a = p then rest.head? else seqNext rest p

/-- `tree->gtNext` as a path: the successor of `p` in the statement's
execution order. -/
def gtNextPath (root : GenTree) (p : List Nat) : Option (List Nat) :=
  seqNext (postorderT root []) p

/-- `Compiler::gtIsVtableRef` (earlyprop.cpp:44-59): a `GT_IND` whose address is
an address mode with no index and an object-reference-typed base. -/
def gtIsVtableRef : GenTree → Bool
  | .ind (.addrMode base idx) => idx.isNone && decide (gtType base = Ty.tREF)
  | _ => false

/-- `GenTree::OperIsIndir` restricted to the shapes of this model. -/
def operIsIndir : GenTree → Bool
  | .ind _ => true
  | .nullchk _ => true
  | _ => false

/-- `tree->AsIndir()->Addr()`. -/
def indirAddr : GenTree → GenTree
  | .ind a => a
  | .nullchk a => a
  | t => t

/-- The observable outcome of `optEarlyPropRewriteTree`: either the node at
`site` is replaced in place by the cloned (and possibly narrowed) constant —
re-labelled as an index expression when the site was so flagged — or a
now-provably-useless bounds check is removed and its enclosing comma collapsed
(the effect of the external `optRemoveRangeCheck`), the surviving side of that
comma becoming the rewrite result. -/
inductive RewriteResult where
  | replaced (site : List Nat) (newNode : GenTree) (labeledIndex : Bool)
  | boundsCheckRemoved (commaPath : List Nat)

/-- The common tail of `Compiler::optEarlyPropRewriteTree` (earlyprop.cpp:288-391)
after the prop kind and tracked operand have been selected: require a
SSA-eligible scalar local, resolve it, apply the ArrayLength 32-bit range
policy, try the bounds-check clean-up, and otherwise replace the site with the
cloned constant narrowed to the site's type. -/
def optEarlyPropRewriteTail (env : PropEnv) (root : GenTree) (treePath : List Nat)
    (tree : GenTree) (objectRefPtr : GenTree) (propKind : OptPropKind) :
    Option RewriteResult :=
  if ¬(operIsScalarLocal objectRefPtr ∧ env.lvaInSsa (getLclNum objectRefPtr)) then none
  else
    match optPropGetValue env (getLclNum objectRefPtr) (getSsaNum objectRefPtr) propKind with
    | none => none
    | some actualVal =>
      let actualConstVal : Int := iconValue actualVal
      if propKind = .OPK_ARRAYLEN ∧ (actualConstVal < 0 ∨ 2147483647 < actualConstVal) then
        none
      else
        let cleanup : Option RewriteResult :=
          if propKind = .OPK_ARRAYLEN then
            match gtNextPath root treePath with
            | some checkPath =>
              match nodeAt checkPath root with
              | some (.boundsChk idxNode _) =>
                if treePath = checkPath ++ [1] ∧ isCnsIntOrI idxNode then
                  let checkConstVal := iconValue idxNode
                  if 0 ≤ checkConstVal ∧ checkConstVal < actualConstVal then
                    if checkPath ≠ [] ∧ checkPath.getLast? = some 0 then
                      match nodeAt checkPath.dropLast root with
                      | some (.comma _ _) => some (.boundsCheckRemoved checkPath.dropLast)
                      | _ => none
                    else none
                  else none
                else none
              | _ => none
            | none => none
          else none
        match cleanup with
        | some r => some r
        | none =>
          let actualValClone :=
            if gtType actualVal ≠ gtType tree then retype actualVal (gtType tree)
            else actualVal
          let isIndexExpr :=
            match tree with
            | .arrLength _ isIdx => isIdx
            | _ => false
          some (.replaced treePath actualValClone isIndexExpr)

/-- `Compiler::optEarlyPropRewriteTree` (earlyprop.cpp:248-391) on the node at
`path` within the statement `root` (`compCurStmt->gtStmt.gtStmtExpr == tree`
becomes `path = []`). `optFoldNullCheck`, which only mutates the statement
holding the tracked definition, is modelled separately at the block level. -/
def optEarlyPropRewriteTree (env : PropEnv) (root : GenTree) (path : List Nat) :
    Option RewriteResult :=
  match nodeAt path root with
  | none => none
  | some tree =>
    match tree with
    | .arrLength arrOp _ =>
      optEarlyPropRewriteTail env root path tree arrOp .OPK_ARRAYLEN
    | _ =>
      if operIsIndir tree then
        if gtIsVtableRef tree then
          if path = [] then none
          else optEarlyPropRewriteTail env root path tree (indirAddr tree) .OPK_OBJ_GETTYPE
        else none
      else none

end EarlyProp

namespace EarlyProp

theorem rewriteTail_gate_resolver (env : PropEnv) (root : GenTree) (treePath : List Nat)
    (tree : GenTree) (ty : Ty) (l s : Nat) (hssa : env.lvaInSsa l = true) :
    optEarlyPropRewriteTail env root treePath tree (.lclVar ty l s) .OPK_ARRAYLEN =
      match optPropGetValue env l s .OPK_ARRAYLEN with
      | none => none
      | some actualVal =>
        let actualConstVal : Int := iconValue actualVal
        if actualConstVal < 0 ∨ 2147483647 < actualConstVal then none
        else
          let cleanup : Option RewriteResult :=
            match gtNextPath root treePath with
            | some checkPath =>
              match nodeAt checkPath root with
              | some (.boundsChk idxNode _) =>
                if treePath = checkPath ++ [1] ∧ isCnsIntOrI idxNode then
                  let checkConstVal := iconValue idxNode
                  if 0 ≤ checkConstVal ∧ checkConstVal < actualConstVal then
                    if checkPath ≠ [] ∧ checkPath.getLast? = some 0 then
                      match nodeAt checkPath.dropLast root with
                      | some (.comma _ _) => some (.boundsCheckRemoved checkPath.dropLast)
                      | _ => none
                    else none
                  else none
                else none
              | _ => none
            | none => none
          match cleanup with
          | some r => some r
          | none =>
            let actualValClone :=
              if gtType actualVal ≠ gtType tree then retype actualVal (gtType tree)
              else actualVal
            let isIndexExpr :=
              match tree with
              | .arrLength _ isIdx => isIdx
              | _ => false
            some (.replaced treePath actualValClone isIndexExpr) := by
  unfold optEarlyPropRewriteTail
  rw [if_neg (not_not_intro ⟨rfl, hssa⟩)]
  dsimp only [getLclNum, getSsaNum]
  cases optPropGetValue env l s .OPK_ARRAYLEN with
  | none => rfl
  | some actualVal =>
    dsimp only
    by_cases hr : iconValue actualVal < 0 ∨ 2147483647 < iconValue actualVal
    · rw [if_pos ⟨rfl, hr⟩, if_pos hr]
    · rw [if_neg (fun hcontra => hr hcontra.2), if_neg hr, if_pos rfl]

/-- C4: an array-length read whose operand's SSA chain ends (within the bound)
at an array-allocation helper with a literal length `n`, `0 ≤ n ≤ INT32_MAX`,
is rewritten to the constant `n` narrowed to the site's 32-bit type; a chain
ending at a call with a non-constant length, or with a constant outside that
range, produces no rewrite. -/
theorem claim_C4 :
    (∀ (bound k : Nat) (h n : Int) (lenTy : Ty) (isIdx : Bool),
      k ≤ bound → 0 ≤ n → n ≤ 2147483647 →
      optEarlyPropRewriteTree
        (chainEnv bound k (.call true .NEWARR_1_DIRECT [.cnsInt Ty.tREF h, .cnsInt lenTy n]))
        (.arrLength (.lclVar Ty.tREF 0 SsaRename.FIRST_SSA_NUM) isIdx) []
        = some (.replaced [] (.cnsInt Ty.tINT n) isIdx))
    ∧ (∀ (bound k : Nat) (h : Int) (isIdx : Bool) (lenNode : GenTree),
      k ≤ bound → isCnsIntOrI lenNode = false →
      optEarlyPropRewriteTree
        (chainEnv bound k (.call true .NEWARR_1_DIRECT [.cnsInt Ty.tREF h, lenNode]))
        (.arrLength (.lclVar Ty.tREF 0 SsaRename.FIRST_SSA_NUM) isIdx) [] = none)
    ∧ (∀ (bound k : Nat) (h n : Int) (lenTy : Ty) (isIdx : Bool),
      k ≤ bound → (n < 0 ∨ 2147483647 < n) →
      optEarlyPropRewriteTree
        (chainEnv bound k (.call true .NEWARR_1_DIRECT [.cnsInt Ty.tREF h, .cnsInt lenTy n]))
        (.arrLength (.lclVar Ty.tREF 0 SsaRename.FIRST_SSA_NUM) isIdx) [] = none) := by
  refine ⟨?_, ?_, ?_⟩
  · intro bound k h n lenTy isIdx hk hn0 hnmax
    have hres : optPropGetValue
        (chainEnv bound k (.call true .NEWARR_1_DIRECT [.cnsInt Ty.tREF h, .cnsInt lenTy n]))
        0 SsaRename.FIRST_SSA_NUM .OPK_ARRAYLEN = some (.cnsInt lenTy n) := by
      show optPropGetValueRec _ 0 _ _ 0 = _
      rw [chainEnv_resolve bound k
        (.call true .NEWARR_1_DIRECT [.cnsInt Ty.tREF h, .cnsInt lenTy n])
        rfl .OPK_ARRAYLEN 0 0 (Nat.zero_le k)]
      rw [if_pos (by omega : k - 0 + 0 ≤ bound)]
      rfl
    have hstep : optEarlyPropRewriteTree
        (chainEnv bound k (.call true .NEWARR_1_DIRECT [.cnsInt Ty.tREF h, .cnsInt lenTy n]))
        (.arrLength (.lclVar Ty.tREF 0 SsaRename.FIRST_SSA_NUM) isIdx) []
        = optEarlyPropRewriteTail
          (chainEnv bound k (.call true .NEWARR_1_DIRECT [.cnsInt Ty.tREF h, .cnsInt lenTy n]))
          (.arrLength (.lclVar Ty.tREF 0 SsaRename.FIRST_SSA_NUM) isIdx) []
          (.arrLength (.lclVar Ty.tREF 0 SsaRename.FIRST_SSA_NUM) isIdx)
          (.lclVar Ty.tREF 0 SsaRename.FIRST_SSA_NUM) .OPK_ARRAYLEN := rfl
    rw [hstep, rewriteTail_gate_resolver _ _ _ _ _ _ _ rfl, hres]
    dsimp only [iconValue, gtType]
    rw [if_neg (by omega : ¬(n < 0 ∨ 2147483647 < n))]
    have hnext : gtNextPath
        (.arrLength (.lclVar Ty.tREF 0 SsaRename.FIRST_SSA_NUM) isIdx) [] = none := rfl
    rw [hnext]
    dsimp only
    by_cases hty : lenTy = Ty.tINT
    · subst hty
      rw [if_neg (by simp)]
    · rw [if_pos (by simp [hty])]
      rfl
  · intro bound k h isIdx lenNode hk hlen
    have hres : optPropGetValue
        (chainEnv bound k (.call true .NEWARR_1_DIRECT [.cnsInt Ty.tREF h, lenNode]))
        0 SsaRename.FIRST_SSA_NUM .OPK_ARRAYLEN = none := by
      show optPropGetValueRec _ 0 _ _ 0 = _
      rw [chainEnv_resolve bound k (.call true .NEWARR_1_DIRECT [.cnsInt Ty.tREF h, lenNode])
        rfl .OPK_ARRAYLEN 0 0 (Nat.zero_le k)]
      rw [if_pos (by omega : k - 0 + 0 ≤ bound)]
      show (if isCnsIntOrI lenNode = true then some lenNode else none) = none
      rw [hlen]
      rfl
    have hstep : optEarlyPropRewriteTree
        (chainEnv bound k (.call true .NEWARR_1_DIRECT [.cnsInt Ty.tREF h, lenNode]))
        (.arrLength (.lclVar Ty.tREF 0 SsaRename.FIRST_SSA_NUM) isIdx) []
        = optEarlyPropRewriteTail
          (chainEnv bound k (.call true .NEWARR_1_DIRECT [.cnsInt Ty.tREF h, lenNode]))
          (.arrLength (.lclVar Ty.tREF 0 SsaRename.FIRST_SSA_NUM) isIdx) []
          (.arrLength (.lclVar Ty.tREF 0 SsaRename.FIRST_SSA_NUM) isIdx)
          (.lclVar Ty.tREF 0 SsaRename.FIRST_SSA_NUM) .OPK_ARRAYLEN := rfl
    rw [hstep, rewriteTail_gate_resolver _ _ _ _ _ _ _ rfl, hres]
  · intro bound k h n lenTy isIdx hk hrange
    have hres : optPropGetValue
        (chainEnv bound k (.call true .NEWARR_1_DIRECT [.cnsInt Ty.tREF h, .cnsInt lenTy n]))
        0 SsaRename.FIRST_SSA_NUM .OPK_ARRAYLEN = some (.cnsInt lenTy n) := by
      show optPropGetValueRec _ 0 _ _ 0 = _
      rw [chainEnv_resolve bound k
        (.call true .NEWARR_1_DIRECT [.cnsInt Ty.tREF h, .cnsInt lenTy n])
        rfl .OPK_ARRAYLEN 0 0 (Nat.zero_le k)]
      rw [if_pos (by omega : k - 0 + 0 ≤ bound)]
      rfl
    have hstep : optEarlyPropRewriteTree
        (chainEnv bound k (.call true .NEWARR_1_DIRECT [.cnsInt Ty.tREF h, .cnsInt lenTy n]))
        (.arrLength (.lclVar Ty.tREF 0 SsaRename.FIRST_SSA_NUM) isIdx) []
        = optEarlyPropRewriteTail
          (chainEnv bound k (.call true .NEWARR_1_DIRECT [.cnsInt Ty.tREF h, .cnsInt lenTy n]))
          (.arrLength (.lclVar Ty.tREF 0 SsaRename.FIRST_SSA_NUM) isIdx) []
          (.arrLength (.lclVar Ty.tREF 0 SsaRename.FIRST_SSA_NUM) isIdx)
          (.lclVar Ty.tREF 0 SsaRename.FIRST_SSA_NUM) .OPK_ARRAYLEN := rfl
    rw [hstep, rewriteTail_gate_resolver _ _ _ _ _ _ _ rfl, hres]
    dsimp only [iconValue]
    rw [if_pos hrange]

/-- Witness for C4: a 1-copy chain to `NEWARR_1_DIRECT` with length 7 rewrites
the site to the 32-bit constant 7; a non-constant length and the lengths `-1`
and `2147483648` produce no rewrite. -/
theorem claim_C4_witness :
    optEarlyPropRewriteTree
      (chainEnv 5 1 (.call true .NEWARR_1_DIRECT [.cnsInt Ty.tREF 0, .cnsInt Ty.tLONG 7]))
      (.arrLength (.lclVar Ty.tREF 0 SsaRename.FIRST_SSA_NUM) false) []
      = some (.replaced [] (.cnsInt Ty.tINT 7) false)
    ∧ optEarlyPropRewriteTree
      (chainEnv 5 1 (.call true .NEWARR_1_DIRECT [.cnsInt Ty.tREF 0, .lclVar Ty.tINT 9 0]))
      (.arrLength (.lclVar Ty.tREF 0 SsaRename.FIRST_SSA_NUM) false) [] = none
    ∧ optEarlyPropRewriteTree
      (chainEnv 5 1 (.call true .NEWARR_1_DIRECT [.cnsInt Ty.tREF 0, .cnsInt Ty.tLONG (-1)]))
      (.arrLength (.lclVar Ty.tREF 0 SsaRename.FIRST_SSA_NUM) false) [] = none
    ∧ optEarlyPropRewriteTree
      (chainEnv 5 1 (.call true .NEWARR_1_DIRECT [.cnsInt Ty.tREF 0, .cnsInt Ty.tLONG 2147483648]))
      (.arrLength (.lclVar Ty.tREF 0 SsaRename.FIRST_SSA_NUM) false) [] = none :=
  ⟨claim_C4.1 5 1 0 7 Ty.tLONG false (by omega) (by omega) (by omega),
   claim_C4.2.1 5 1 0 false (.lclVar Ty.tINT 9 0) (by omega) rfl,
   claim_C4.2.2 5 1 0 (-1) Ty.tLONG false (by omega) (Or.inl (by omega)),
   claim_C4.2.2 5 1 0 2147483648 Ty.tLONG false (by omega) (Or.inr (by omega))⟩

def envC6 : PropEnv :=
  { lvaInSsa := fun _ => true
    ssaDef := fun _ _ => SsaDefEntry.asgRhs (.call true .NEWFAST [.cnsInt Ty.tLONG 77])
    optEarlyPropRecurBound := 5 }

def vtableTreeC6 : GenTree := .ind (.addrMode (.lclVar Ty.tREF 3 2) none)

/-- C6, evaluated at the failing input: the indirection is vtable-shaped and its
base operand resolves with kind TypeHandle to a constant, yet the rewriter
performs no rewrite — the code stores the address-mode node (not its base) in
`objectRefPtr` (earlyprop.cpp:275), which can never pass the scalar-local gate
at earlyprop.cpp:288, contradicting the pass's own description
(earlyprop.cpp:156-158) and the spec. The statement-root exclusion and the
non-rewriting of non-vtable-shaped indirections do hold. -/
theorem claim_C6 :
    gtIsVtableRef vtableTreeC6 = true
    ∧ optPropGetValue envC6 3 2 .OPK_OBJ_GETTYPE = some (.cnsInt Ty.tLONG 77)
    ∧ optEarlyPropRewriteTree envC6 (.comma vtableTreeC6 (.cnsInt Ty.tINT 0)) [0] = none
    ∧ optEarlyPropRewriteTree envC6 vtableTreeC6 [] = none
    ∧ optEarlyPropRewriteTree envC6 (.comma (.ind (.lclVar Ty.tREF 3 2)) (.cnsInt Ty.tINT 0)) [0]
        = none :=
  ⟨rfl, rfl, rfl, rfl, rfl⟩

/-- C7: immediately after an array-length read resolves to the constant `n`,
if the next node in execution order is a bounds check whose length operand is
this same node and whose index is a constant `c` with `0 ≤ c < n`, and the
check is the first operand of an enclosing comma, the bounds check is removed
and that comma's surviving side becomes the rewrite result; otherwise the
bounds check stays and the site is simply replaced by the constant. -/
theorem claim_C7 (env : PropEnv) (l s : Nat) (n c : Int) (ty : Ty)
    (hssa : env.lvaInSsa l = true)
    (hres : optPropGetValue env l s .OPK_ARRAYLEN = some (.cnsInt ty n))
    (hn0 : 0 ≤ n) (hnmax : n ≤ 2147483647) :
    (0 ≤ c ∧ c < n →
      optEarlyPropRewriteTree env
        (.comma (.boundsChk (.cnsInt Ty.tINT c) (.arrLength (.lclVar Ty.tREF l s) false))
          (.cnsInt Ty.tINT 0)) [0, 1]
        = some (.boundsCheckRemoved []))
    ∧ (¬(0 ≤ c ∧ c < n) →
      optEarlyPropRewriteTree env
        (.comma (.boundsChk (.cnsInt Ty.tINT c) (.arrLength (.lclVar Ty.tREF l s) false))
          (.cnsInt Ty.tINT 0)) [0, 1]
        = some (.replaced [0, 1] (.cnsInt Ty.tINT n) false)) := by
  have hstep : optEarlyPropRewriteTree env
      (.comma (.boundsChk (.cnsInt Ty.tINT c) (.arrLength (.lclVar Ty.tREF l s) false))
        (.cnsInt Ty.tINT 0)) [0, 1]
      = optEarlyPropRewriteTail env
        (.comma (.boundsChk (.cnsInt Ty.tINT c) (.arrLength (.lclVar Ty.tREF l s) false))
          (.cnsInt Ty.tINT 0)) [0, 1]
        (.arrLength (.lclVar Ty.tREF l s) false) (.lclVar Ty.tREF l s) .OPK_ARRAYLEN := rfl
  have hval : optEarlyPropRewriteTree env
      (.comma (.boundsChk (.cnsInt Ty.tINT c) (.arrLength (.lclVar Ty.tREF l s) false))
        (.cnsInt Ty.tINT 0)) [0, 1]
      = (if n < 0 ∨ 2147483647 < n then none
         else
           match (if 0 ≤ c ∧ c < n
               then some (RewriteResult.boundsCheckRemoved ([] : List Nat)) else none) with
           | some r => some r
           | none =>
             some (RewriteResult.replaced [0, 1]
               (if ty ≠ Ty.tINT then GenTree.cnsInt Ty.tINT n else GenTree.cnsInt ty n)
               false)) := by
    rw [hstep, rewriteTail_gate_resolver _ _ _ _ _ _ _ hssa, hres]
    rfl
  constructor
  · intro hc
    rw [hval, if_neg (by omega : ¬(n < 0 ∨ 2147483647 < n)), if_pos hc]
  · intro hc
    rw [hval, if_neg (by omega : ¬(n < 0 ∨ 2147483647 < n)), if_neg hc]
    by_cases hty : ty = Ty.tINT
    · subst hty
      rw [if_neg (show ¬(Ty.tINT ≠ Ty.tINT) from by simp)]
    · rw [if_pos hty]

/-- Witness for C7: with a direct allocation of length 10, index 3 removes the
bounds check, index 12 leaves it in place (plain constant replacement). -/
theorem claim_C7_witness :
    optEarlyPropRewriteTree
      (chainEnv 5 0 (.call true .NEWARR_1_DIRECT [.cnsInt Ty.tREF 0, .cnsInt Ty.tLONG 10]))
      (.comma (.boundsChk (.cnsInt Ty.tINT 3)
        (.arrLength (.lclVar Ty.tREF 0 SsaRename.FIRST_SSA_NUM) false)) (.cnsInt Ty.tINT 0))
      [0, 1] = some (.boundsCheckRemoved [])
    ∧ optEarlyPropRewriteTree
      (chainEnv 5 0 (.call true .NEWARR_1_DIRECT [.cnsInt Ty.tREF 0, .cnsInt Ty.tLONG 10]))
      (.comma (.boundsChk (.cnsInt Ty.tINT 12)
        (.arrLength (.lclVar Ty.tREF 0 SsaRename.FIRST_SSA_NUM) false)) (.cnsInt Ty.tINT 0))
      [0, 1] = some (.replaced [0, 1] (.cnsInt Ty.tINT 10) false) :=
  ⟨(claim_C7 (chainEnv 5 0 (.call true .NEWARR_1_DIRECT [.cnsInt Ty.tREF 0, .cnsInt Ty.tLONG 10]))
      0 SsaRename.FIRST_SSA_NUM 10 3 Ty.tLONG rfl rfl (by omega) (by omega)).1
      ⟨by omega, by omega⟩,
   (claim_C7 (chainEnv 5 0 (.call true .NEWARR_1_DIRECT [.cnsInt Ty.tREF 0, .cnsInt Ty.tLONG 10]))
      0 SsaRename.FIRST_SSA_NUM 10 12 Ty.tLONG rfl rfl (by omega) (by omega)).2
      (by omega)⟩

end EarlyProp

namespace EarlyProp

/-- Whether a subtree carries `GTF_SIDE_EFFECT`. Modelled from the spec and the
comment in `optCanMoveNullCheckPastTree` (earlyprop.cpp:685-687): calls,
exception sources (indirections, null checks, bounds checks, array-length
reads) and all assignments; an `other` node carries its own summary flag. -/
def gtHasSideEffect : GenTree → Bool
  | .cnsInt _ _ => false
  | .lclVar _ _ _ => false
  | .lclFld _ _ _ => false
  | .ind _ => true
  | .nullchk _ => true
  | .addrMode b none => gtHasSideEffect b
  | .addrMode b (some i) => gtHasSideEffect b || gtHasSideEffect i
  | .arrLength _ _ => true
  | .boundsChk _ _ => true
  | .comma a b => gtHasSideEffect a || gtHasSideEffect b
  | .addOp a b => gtHasSideEffect a || gtHasSideEffect b
  | .asg _ _ => true
  | .call _ _ _ => true
  | .cmp _ _ _ a b => gtHasSideEffect a || gtHasSideEffect b
  | .phi => false
  | .jtrue c => gtHasSideEffect c
  | .other _ sideEff _ => sideEff

/-- Whether a subtree carries `GTF_GLOBALLY_VISIBLE_SIDE_EFFECTS`. Modelled from
the spec and the comment in `optCanMoveNullCheckPastTree` (earlyprop.cpp:695-696):
calls, exception sources, and assignments to global (non-local) memory. -/
def gtHasGlobalSideEffect : GenTree → Bool
  | .cnsInt _ _ => false
  | .lclVar _ _ _ => false
  | .lclFld _ _ _ => false
  | .ind _ => true
  | .nullchk _ => true
  | .addrMode b none => gtHasGlobalSideEffect b
  | .addrMode b (some i) => gtHasGlobalSideEffect b || gtHasGlobalSideEffect i
  | .arrLength _ _ => true
  | .boundsChk _ _ => true
  | .comma a b => gtHasGlobalSideEffect a || gtHasGlobalSideEffect b
  | .addOp a b => gtHasGlobalSideEffect a || gtHasGlobalSideEffect b
  | .asg lhs rhs => (!operIsScalarLocal lhs) || gtHasGlobalSideEffect lhs || gtHasGlobalSideEffect rhs
  | .call _ _ _ => true
  | .cmp _ _ _ a b => gtHasGlobalSideEffect a || gtHasGlobalSideEffect b
  | .phi => false
  | .jtrue c => gtHasGlobalSideEffect c
  | .other _ _ globEff => globEff

/-- `Compiler::optCanMoveNullCheckPastTree` (earlyprop.cpp:681-704): inside a
try region any side effect disqualifies; outside one only globally visible
side effects do. -/
def optCanMoveNullCheckPastTree (tree : GenTree) (isInsideTry : Bool) : Bool :=
  if isInsideTry then !gtHasSideEffect tree else !gtHasGlobalSideEffect tree

/-- The backward safety walk of `optFoldNullCheck` (earlyprop.cpp:597-637): one
shared node budget across both loops; each step first tests
`nodesWalked++ > maxNodesWalked`, then the side-effect predicate. Returns the
updated count, or nothing when the walk disqualifies the fold. -/
def nullCheckWalk : List GenTree → Bool → Nat → Nat → Option Nat
  | [], _, nodesWalked, _ => some nodesWalked
  | t :: rest, inTry, nodesWalked, maxNodesWalked =>
    if maxNodesWalked < nodesWalked ∨ (!optCanMoveNullCheckPastTree t inTry) = true then none
    else nullCheckWalk rest inTry (nodesWalked + 1) maxNodesWalked

/-- The external state `optFoldNullCheck` consults: the block's
`BBF_HAS_NULLCHECK` flag, its `hasTryIndex()`, its identity, the SSA definition
locations (`m_defLoc.m_blk`, and `m_defLoc.m_tree` as a (statement index, path)
location within the current block, `none` when there is no producing tree), and
`compMaxUncheckedOffsetForNullObject` for `fgIsBigOffset` (both external). -/
structure FoldEnv where
  hasNullCheckFlag : Bool
  insideTry : Bool
  curBlkId : Nat
  ssaDefBlk : Nat → Nat → Nat
  ssaDefTree : Nat → Nat → Option (Nat × List Nat)
  compMaxUncheckedOffsetForNullObject : Int

/-- Modelled from the spec: `fgIsBigOffset` is external; the offset must be
"small enough to be guaranteed not to cross a page boundary" (§4.4). The
`size_t` cast in the source makes negative offsets big. -/
def fgIsBigOffset (env : FoldEnv) (offset : Int) : Bool :=
  decide (offset < 0 ∨ env.compMaxUncheckedOffsetForNullObject < offset)

/-- `Compiler::optFoldNullCheck` (earlyprop.cpp:505-667) as a decision function:
given a block's statements, the statement containing the indirection and the
indirection's path, it returns the (statement index, path) of the `GT_NULLCHECK`
node whose exception-raising behaviour is deleted (the code clears
`GTF_EXCEPT`, sets `GTF_ORDER_SIDEEFF` and `GTF_IND_NONFAULTING` on that node
and re-morphs the definition statement), or nothing if the fold is rejected.
The walk over previous statements assumes the definition precedes the use
(the source would otherwise run off the statement list). -/
def optFoldNullCheck (env : FoldEnv) (stmts : List GenTree) (curStmtIdx : Nat)
    (indPath : List Nat) : Option (Nat × List Nat) :=
  if (!env.hasNullCheckFlag) = true then none
  else
    match stmts[curStmtIdx]? with
    | none => none
    | some curRoot =>
      match nodeAt indPath curRoot with
      | some (.ind (.lclVar _ lclNum ssaNum)) =>
        if ssaNum = SsaRename.RESERVED_SSA_NUM then none
        else if env.curBlkId ≠ env.ssaDefBlk lclNum ssaNum then none
        else
          match env.ssaDefTree lclNum ssaNum with
          | none => none
          | some (defStmtIdx, defPath) =>
            match stmts[defStmtIdx]? with
            | none => none
            | some defRoot =>
              if defPath = [] then none
              else if defPath.dropLast ≠ [] then none
              else
                match defRoot with
                | .asg _ (.comma (.nullchk (.lclVar _ nullCheckLclNum _))
                    (.addOp (.lclVar _ addLclNum _) offsetNode)) =>
                  if addLclNum ≠ nullCheckLclNum then none
                  else
                    match offsetNode with
                    | .cnsInt _ offsetVal =>
                      if fgIsBigOffset env offsetVal = true then none
                      else
                        let lin := postorderT curRoot []
                        let walk1 := ((lin.takeWhile (fun p => p ≠ indPath ++ [0])).reverse).filterMap
                          (fun p => nodeAt p curRoot)
                        match nullCheckWalk walk1 env.insideTry 0 25 with
                        | none => none
                        | some cnt =>
                          if curStmtIdx ≤ defStmtIdx then none
                          else
                            let between :=
                              ((stmts.drop (defStmtIdx + 1)).take (curStmtIdx - 1 - defStmtIdx)).reverse
                            match nullCheckWalk between env.insideTry cnt 25 with
                            | none => none
                            | some _ => some (defStmtIdx, defPath.dropLast ++ [1, 0])
                    | _ => none
                | _ => none
      | _ => none

def foldEnv (insideTry : Bool) (maxOff : Int) : FoldEnv :=
  { hasNullCheckFlag := true
    insideTry := insideTry
    curBlkId := 7
    ssaDefBlk := fun _ _ => 7
    ssaDefTree := fun l _ => if l = 1 then some (0, [0]) else none
    compMaxUncheckedOffsetForNullObject := maxOff }

/-- The block `t = (nullcheck(p), p + off); x = t; load(x)` from the claim: the
dereferenced local (2, i.e. `x`) is defined by a plain copy, not by the
nullcheck-comma. -/
def stmtsC3cex : List GenTree :=
  [.asg (.lclVar Ty.tBYREF 1 2)
     (.comma (.nullchk (.lclVar Ty.tBYREF 0 2))
       (.addOp (.lclVar Ty.tBYREF 0 2) (.cnsInt Ty.tLONG 8))),
   .asg (.lclVar Ty.tBYREF 2 2) (.lclVar Ty.tBYREF 1 2),
   .ind (.lclVar Ty.tBYREF 2 2)]

def foldEnvCex : FoldEnv :=
  { hasNullCheckFlag := true
    insideTry := false
    curBlkId := 7
    ssaDefBlk := fun _ _ => 7
    ssaDefTree := fun l _ =>
      if l = 2 then some (1, [0]) else if l = 1 then some (0, [0]) else none
    compMaxUncheckedOffsetForNullObject := 1024 }

/-- C3 counterexample: in the claim's scenario
`t = (nullcheck(p), p+8); x = t; load(x)` (no intervening call or global write,
outside any try region) the code performs NO fold: the dereferenced local `x`
is defined by the plain copy `x = t`, whose right-hand side is not the
nullcheck-comma shape required at earlyprop.cpp:574, so the null check is not
removed. -/
theorem claim_C3_counterexample :
    optFoldNullCheck foldEnvCex stmtsC3cex 2 [] = none := rfl

def foldStmts (mid : GenTree) (off : Int) : List GenTree :=
  [.asg (.lclVar Ty.tBYREF 1 2)
     (.comma (.nullchk (.lclVar Ty.tBYREF 0 2))
       (.addOp (.lclVar Ty.tBYREF 0 2) (.cnsInt Ty.tLONG off))),
   mid,
   .ind (.lclVar Ty.tBYREF 1 2)]

theorem foldStmts_val (mid : GenTree) (off maxOff : Int) (insideTry : Bool) :
    optFoldNullCheck (foldEnv insideTry maxOff) (foldStmts mid off) 2 [] =
      (if fgIsBigOffset (foldEnv insideTry maxOff) off = true then none
       else
         match (if (25 : Nat) < 0 ∨ (!optCanMoveNullCheckPastTree mid insideTry) = true
             then none else some 1) with
         | none => none
         | some _ => some (0, [1, 0])) := rfl

/-- C3 (amended): for the idiom in which the dereferenced local itself is
assigned `(nullcheck(y), y + small constant)` — here
`x = (nullcheck(p), p+off); mid; load(x)` — the fold fires when the intervening
statement has no globally visible side effect and the block is outside any try
region (the nullcheck node at statement 0, path [1,0] has its faulting
behaviour deleted; the load itself is not re-flagged); an intervening call
suppresses the fold, and inside a try region any intervening side effect
suppresses it. -/
theorem claim_C3 :
    (∀ (mid : GenTree) (off maxOff : Int), gtHasGlobalSideEffect mid = false →
      0 ≤ off → off ≤ maxOff →
      optFoldNullCheck (foldEnv false maxOff) (foldStmts mid off) 2 [] = some (0, [1, 0]))
    ∧ (∀ (off maxOff : Int) (hargs : List GenTree), 0 ≤ off → off ≤ maxOff →
      optFoldNullCheck (foldEnv false maxOff)
        (foldStmts (.call false .otherHelper hargs) off) 2 [] = none)
    ∧ (∀ (mid : GenTree) (off maxOff : Int), gtHasSideEffect mid = true →
      0 ≤ off → off ≤ maxOff →
      optFoldNullCheck (foldEnv true maxOff) (foldStmts mid off) 2 [] = none) := by
  have hsmall : ∀ (off maxOff : Int) (insideTry : Bool), 0 ≤ off → off ≤ maxOff →
      ¬(fgIsBigOffset (foldEnv insideTry maxOff) off = true) := by
    intro off maxOff insideTry h0 h1
    simp only [fgIsBigOffset, foldEnv, decide_eq_true_eq]
    omega
  refine ⟨?_, ?_, ?_⟩
  · intro mid off maxOff hmid h0 h1
    rw [foldStmts_val, if_neg (hsmall off maxOff false h0 h1)]
    have hcm : optCanMoveNullCheckPastTree mid false = true := by
      simp [optCanMoveNullCheckPastTree, hmid]
    rw [if_neg (by
      intro hcontra
      rcases hcontra with hc | hc
      · omega
      · rw [hcm] at hc
        exact Bool.noConfusion hc)]
  · intro off maxOff hargs h0 h1
    rw [foldStmts_val, if_neg (hsmall off maxOff false h0 h1)]
    rw [if_pos (Or.inr (by
      show (!optCanMoveNullCheckPastTree (.call false .otherHelper hargs) false) = true
      rfl))]
  · intro mid off maxOff hmid h0 h1
    rw [foldStmts_val, if_neg (hsmall off maxOff true h0 h1)]
    have hcm : optCanMoveNullCheckPastTree mid true = false := by
      simp [optCanMoveNullCheckPastTree, hmid]
    rw [if_pos (Or.inr (by rw [hcm]; rfl))]

/-- Witness for C3: the direct scenario with a benign intervening local
assignment folds; an intervening call does not. -/
theorem claim_C3_witness :
    optFoldNullCheck (foldEnv false 1024)
      (foldStmts (.asg (.lclVar Ty.tINT 5 0) (.cnsInt Ty.tINT 1)) 8) 2 []
      = some (0, [1, 0])
    ∧ optFoldNullCheck (foldEnv false 1024)
      (foldStmts (.call false .otherHelper []) 8) 2 [] = none :=
  ⟨claim_C3.1 (.asg (.lclVar Ty.tINT 5 0) (.cnsInt Ty.tINT 1)) 8 1024 rfl
      (by omega) (by omega),
   claim_C3.2.1 8 1024 [] (by omega) (by omega)⟩

end EarlyProp

namespace EarlyProp

/-- `GenTree::OperIsConst` for the shapes in this model. -/
def operIsConst : GenTree → Bool
  | .cnsInt _ _ => true
  | _ => false

/-- `GenTree::OperIsCompare` for the shapes in this model. -/
def operIsCompare : GenTree → Bool
  | .cmp _ _ _ _ _ => true
  | _ => false

/-- `GenTree::IsIntegralConst(0)`. -/
def isIntegralConstZero : GenTree → Bool
  | .cnsInt _ v => decide (v = 0)
  | _ => false

/-- `block->lastNode()`: the root of a block's final statement. -/
def lastStmt (stmts : List GenTree) : Option GenTree :=
  stmts.reverse.head?

/-- The `JTRUE(0)`/`JTRUE(1)` fixup of `optDoEarlyPropForJTrue`
(earlyprop.cpp:804-812): an integral constant 0 becomes the canonical
always-false relop `0 != 0`, anything else (an integral constant 1 on the
code's assert) becomes the always-true `0 == 0`; the new relop carries
`GTF_RELOP_JMP_USED` and is not reverse-ordered. -/
def jtrueFix (t : GenTree) : GenTree :=
  .cmp (if isIntegralConstZero t = true then .NE else .EQ) false true
    (.cnsInt Ty.tINT 0) (.cnsInt Ty.tINT 0)

/-- `fgMorphTree(jtrue)` followed by the non-compare fixup
(earlyprop.cpp:802-812). `fgMorphTree` is external, so it is an abstract
function on the branch condition. -/
def jtrueMorphFix (morph : GenTree → GenTree) (c : GenTree) : GenTree :=
  let m := morph c
  if operIsCompare m = true then m else jtrueFix m

/-- Outcome of `optDoEarlyPropForJTrue` on a block: no change; the
immediate-predecessor rewrite (earlyprop.cpp:785-828), carrying the block's new
statement list; or the partial chain-move path (earlyprop.cpp:830-966), whose
effect depends on external morphing and is not modelled further. -/
inductive JTResult where
  | noChange
  | immediate (newStmts : List GenTree)
  | deferred

/-- The external state `optDoEarlyPropForJTrue` consults: SSA membership,
`LclSsaVarDsc::IsSingleUse`, and the definition location — `m_defLoc.m_tree`
as a (statement index, path of the defined local node) within the block
(`none` when there is no producing tree), plus `m_defLoc.m_blk`. -/
structure JTEnv where
  lvaInSsa : Nat → Bool
  isSingleUse : Nat → Nat → Bool
  ssaDefStmt : Nat → Nat → Option (Nat × List Nat)
  ssaDefBlk : Nat → Nat → Nat

/-- `rhs->OperIs(GT_PHI)` (earlyprop.cpp:773). -/
def operIsPhi : GenTree → Bool
  | .phi => true
  | _ => false

/-- Last stage of `optDoEarlyPropForJTrue` (earlyprop.cpp:771-828): reject a
`GT_PHI` source; if the assignment roots the statement immediately preceding
the branch, perform the immediate rewrite; if it roots some earlier statement,
the search loop finds it and the partial chain-move path runs; otherwise the
search fails and nothing changes. -/
def jtrueFinal (morph : GenTree → GenTree) (stmts : List GenTree) (oper : CmpOper)
    (rev jmp : Bool) (op2 rhs : GenTree) (defStmtIdx : Nat) (defPath : List Nat) : JTResult :=
  if operIsPhi rhs = true then .noChange
  else if defPath.dropLast = [] ∧ defStmtIdx + 2 = stmts.length then
    .immediate (stmts.take defStmtIdx ++
      [.jtrue (jtrueMorphFix morph (.cmp oper rev jmp rhs op2))])
  else if defPath.dropLast = [] then .deferred
  else .noChange

/-- The `gtGetParent`/`GT_ASG` stage (earlyprop.cpp:762-769): the definition's
parent must be an assignment whose destination is a `GT_LCL_VAR` (not a
`GT_LCL_FLD`). -/
def jtrueAsg (morph : GenTree → GenTree) (stmts : List GenTree) (oper : CmpOper)
    (rev jmp : Bool) (op2 : GenTree) (defStmtIdx : Nat) (defPath : List Nat)
    (defRoot : GenTree) : JTResult :=
  match nodeAt defPath.dropLast defRoot with
  | some (.asg (.lclVar _ _ _) rhs) =>
    jtrueFinal morph stmts oper rev jmp op2 rhs defStmtIdx defPath
  | _ => .noChange

/-- The definition-location stage (earlyprop.cpp:755-760): the SSA definition
must be in this block. -/
def jtrueDef (env : JTEnv) (morph : GenTree → GenTree) (blkId : Nat)
    (stmts : List GenTree) (oper : CmpOper) (rev jmp : Bool) (op2 : GenTree)
    (lclNum ssaNum defStmtIdx : Nat) (defPath : List Nat) : JTResult :=
  if env.ssaDefBlk lclNum ssaNum ≠ blkId then .noChange
  else
    match stmts[defStmtIdx]? with
    | none => .noChange
    | some defRoot => jtrueAsg morph stmts oper rev jmp op2 defStmtIdx defPath defRoot

/-- The guard stage of `optDoEarlyPropForJTrue` (earlyprop.cpp:720-753),
reached once the branch condition is a relop with a `GT_LCL_VAR` first
operand. -/
def jtrueTail (env : JTEnv) (morph : GenTree → GenTree) (blkId : Nat)
    (stmts : List GenTree) (oper : CmpOper) (rev jmp : Bool)
    (lclNum ssaNum : Nat) (op2 : GenTree) : JTResult :=
  if rev = true ∧ operIsConst op2 = false then .noChange
  else if (!env.lvaInSsa lclNum) = true then .noChange
  else if (!env.isSingleUse lclNum ssaNum) = true then .noChange
  else
    match env.ssaDefStmt lclNum ssaNum with
    | none => .noChange
    | some (defStmtIdx, defPath) =>
      jtrueDef env morph blkId stmts oper rev jmp op2 lclNum ssaNum defStmtIdx defPath

/-- `Compiler::optDoEarlyPropForJTrue` (earlyprop.cpp:706-967). The guards
follow the source in order: the relop's first operand must be `GT_LCL_VAR`; a
reverse-ordered relop with a non-constant second operand is rejected; the local
must be in SSA with a single-use SSA definition that has a producing tree in
this block; the definition's parent must be a `GT_ASG` whose destination is a
`GT_LCL_VAR` and whose source is not a `GT_PHI`. If that assignment is the root
of the statement immediately preceding the branch, the relop's first operand is
replaced by the full defining expression, the branch condition is re-morphed
with the `JTRUE(0/1)` fixup, and the definition statement is removed; if the
assignment is some other statement's root the partial chain-move path runs
(`deferred`); if it is buried inside a larger tree the statement search fails
and nothing changes. -/
def optDoEarlyPropForJTrue (env : JTEnv) (morph : GenTree → GenTree) (blkId : Nat)
    (stmts : List GenTree) : JTResult :=
  match lastStmt stmts with
  | some (.jtrue (.cmp oper rev jmp (.lclVar _ lclNum ssaNum) op2)) =>
    jtrueTail env morph blkId stmts oper rev jmp lclNum ssaNum op2
  | _ => .noChange

def jtEnvC5 : JTEnv :=
  { lvaInSsa := fun _ => true
    isSingleUse := fun _ _ => true
    ssaDefStmt := fun l _ => if l = 1 then some (0, [0]) else none
    ssaDefBlk := fun _ _ => 7 }

/-- A block meeting every condition in the claim — `t = a + 255` immediately
followed by `if (t == x) ...` with `t` single-use, SSA, defined here by a
non-PHI assignment — whose relop is however reverse-ordered
(`GTF_REVERSE_OPS`) with a non-constant second operand. -/
def stmtsC5 : List GenTree :=
  [.asg (.lclVar Ty.tINT 1 2) (.addOp (.lclVar Ty.tINT 3 2) (.cnsInt Ty.tINT 255)),
   .jtrue (.cmp .EQ true true (.lclVar Ty.tINT 1 2) (.lclVar Ty.tINT 4 2))]

/-- C5 counterexample: all the conditions the claim lists hold (first operand a
plain single-use SSA local, producing non-PHI assignment in the same block as
the immediately preceding statement), yet no rewrite happens, because the
relop is reverse-ordered and its second operand is not a constant — a
precondition at earlyprop.cpp:720-730 that the claim omits. -/
theorem claim_C5_counterexample :
    optDoEarlyPropForJTrue jtEnvC5 (fun t => t) 7 stmtsC5 = .noChange := rfl

end EarlyProp

namespace EarlyProp

theorem lastStmt_concat (l : List GenTree) (t : GenTree) : lastStmt (l ++ [t]) = some t := by
  simp [lastStmt]

theorem lastStmt_concat_two (l : List GenTree) (a b : GenTree) :
    lastStmt (l ++ [a, b]) = some b := by
  simp [lastStmt]

theorem getElem?_append_len (l m : List GenTree) : (l ++ m)[l.length]? = m[0]? := by
  rw [List.getElem?_append_right (Nat.le_refl _)]
  simp

theorem operIsCompare_jtrueMorphFix (morph : GenTree → GenTree) (c : GenTree) :
    operIsCompare (jtrueMorphFix morph c) = true := by
  unfold jtrueMorphFix
  by_cases h : operIsCompare (morph c) = true
  · rw [if_pos h]; exact h
  · rw [if_neg h]; rfl

/-- C5 (amended): adding to the claim's conditions that the relop is not
reverse-ordered with a non-constant second operand (earlyprop.cpp:720-730),
`optDoEarlyPropForJTrue` on a block ending in
`lclNum = rhs; if (lclNum <op> op2) ...` — with `lclNum` a plain SSA local
whose version is single-use, defined by that non-PHI assignment rooting the
immediately preceding statement of the same block — replaces the branch
operand's first operand by the full defining expression `rhs` (then re-morphs
it, with the JTRUE(0/1) fixup) and deletes the definition statement. -/
theorem claim_C5 (pre : List GenTree) (oper : CmpOper) (rev jmp : Bool)
    (op2 rhs : GenTree) (ty ty2 : Ty) (lclNum ssaNum blkId : Nat) (env : JTEnv)
    (morph : GenTree → GenTree)
    (hrev : rev = false ∨ operIsConst op2 = true)
    (hssa : env.lvaInSsa lclNum = true)
    (hsingle : env.isSingleUse lclNum ssaNum = true)
    (hdef : env.ssaDefStmt lclNum ssaNum = some (pre.length, [0]))
    (hblk : env.ssaDefBlk lclNum ssaNum = blkId)
    (hphi : operIsPhi rhs = false) :
    optDoEarlyPropForJTrue env morph blkId
      (pre ++ [.asg (.lclVar ty2 lclNum ssaNum) rhs,
               .jtrue (.cmp oper rev jmp (.lclVar ty lclNum ssaNum) op2)])
      = .immediate (pre ++ [.jtrue (jtrueMorphFix morph (.cmp oper rev jmp rhs op2))]) := by
  have e1 : optDoEarlyPropForJTrue env morph blkId
      (pre ++ [.asg (.lclVar ty2 lclNum ssaNum) rhs,
               .jtrue (.cmp oper rev jmp (.lclVar ty lclNum ssaNum) op2)])
      = jtrueTail env morph blkId
          (pre ++ [.asg (.lclVar ty2 lclNum ssaNum) rhs,
                   .jtrue (.cmp oper rev jmp (.lclVar ty lclNum ssaNum) op2)])
          oper rev jmp lclNum ssaNum op2 := by
    unfold optDoEarlyPropForJTrue
    rw [lastStmt_concat_two]
  rw [e1]
  unfold jtrueTail
  rw [if_neg (by
    intro hcon
    rcases hrev with h | h
    · rw [h] at hcon; exact Bool.noConfusion hcon.1
    · rw [h] at hcon; exact Bool.noConfusion hcon.2)]
  rw [if_neg (by intro h; rw [hssa] at h; exact Bool.noConfusion h)]
  rw [if_neg (by intro h; rw [hsingle] at h; exact Bool.noConfusion h)]
  rw [hdef]
  show jtrueDef env morph blkId _ oper rev jmp op2 lclNum ssaNum pre.length [0]
      = _
  unfold jtrueDef
  rw [if_neg (not_not_intro hblk)]
  rw [getElem?_append_len]
  show jtrueFinal morph _ oper rev jmp op2 rhs pre.length [0] = _
  unfold jtrueFinal
  rw [if_neg (by intro h; rw [hphi] at h; exact Bool.noConfusion h)]
  rw [if_pos ⟨rfl, by simp⟩]
  rw [List.take_left]

/-- Witness for C5: `t = a + 255; if (t == 0) ...` becomes
`if (a + 255 == 0) ...` with the definition statement gone. -/
theorem claim_C5_witness :
    optDoEarlyPropForJTrue jtEnvC5 (fun t => t) 7
      [.asg (.lclVar Ty.tINT 1 2) (.addOp (.lclVar Ty.tINT 3 2) (.cnsInt Ty.tINT 255)),
       .jtrue (.cmp .EQ false true (.lclVar Ty.tINT 1 2) (.cnsInt Ty.tINT 0))]
      = .immediate
          [.jtrue (jtrueMorphFix (fun t => t)
            (.cmp .EQ false true (.addOp (.lclVar Ty.tINT 3 2) (.cnsInt Ty.tINT 255))
              (.cnsInt Ty.tINT 0)))] :=
  claim_C5 [] .EQ false true (.cnsInt Ty.tINT 0)
    (.addOp (.lclVar Ty.tINT 3 2) (.cnsInt Ty.tINT 255)) Ty.tINT Ty.tINT 1 2 7
    jtEnvC5 (fun t => t) (Or.inl rfl) rfl rfl rfl rfl rfl

/-- C10: whenever `optDoEarlyPropForJTrue` performs the immediate rewrite, the
block's new final statement is a `GT_JTRUE` whose operand is a comparison node
(the morph result is kept when it is a relop and otherwise replaced by the
fixup); and the fixup maps an integral constant 0 to the canonical
always-false `0 != 0` and 1 to the always-true `0 == 0`, both flagged
`GTF_RELOP_JMP_USED`. -/
theorem claim_C10 :
    (∀ (env : JTEnv) (morph : GenTree → GenTree) (blkId : Nat) (stmts ns : List GenTree),
      optDoEarlyPropForJTrue env morph blkId stmts = JTResult.immediate ns →
      ∃ c, lastStmt ns = some (GenTree.jtrue c) ∧ operIsCompare c = true)
    ∧ jtrueFix (GenTree.cnsInt Ty.tINT 0)
        = GenTree.cmp CmpOper.NE false true (GenTree.cnsInt Ty.tINT 0) (GenTree.cnsInt Ty.tINT 0)
    ∧ jtrueFix (GenTree.cnsInt Ty.tINT 1)
        = GenTree.cmp CmpOper.EQ false true (GenTree.cnsInt Ty.tINT 0) (GenTree.cnsInt Ty.tINT 0) := by
  refine ⟨?_, rfl, rfl⟩
  intro env morph blkId stmts ns h
  unfold optDoEarlyPropForJTrue jtrueTail jtrueDef jtrueAsg jtrueFinal at h
  repeat' split at h
  all_goals try exact JTResult.noConfusion h
  injection h with h
  subst h
  exact ⟨_, lastStmt_concat _ _, operIsCompare_jtrueMorphFix morph _⟩

def stmtsC10 : List GenTree :=
  [.asg (.lclVar Ty.tINT 1 2) (.addOp (.lclVar Ty.tINT 3 2) (.cnsInt Ty.tINT 255)),
   .jtrue (.cmp .EQ false true (.lclVar Ty.tINT 1 2) (.cnsInt Ty.tINT 0))]

def nsC10 : List GenTree :=
  [.jtrue (.cmp .EQ false true (.addOp (.lclVar Ty.tINT 3 2) (.cnsInt Ty.tINT 255))
    (.cnsInt Ty.tINT 0))]

/-- Witness for C10: a block where the immediate rewrite fires (identity
morph), and the new final statement is indeed a JTRUE of a comparison. -/
theorem claim_C10_witness :
    optDoEarlyPropForJTrue jtEnvC5 (fun t => t) 7 stmtsC10 = JTResult.immediate nsC10
    ∧ ∃ c, lastStmt nsC10 = some (GenTree.jtrue c) ∧ operIsCompare c = true :=
  ⟨rfl, claim_C10.1 jtEnvC5 (fun t => t) 7 stmtsC10 nsC10 rfl⟩

end EarlyProp
